import Mathlib

/-
  Verification of the familybot task-lifecycle and reward-computation core.

  The definitions below are a shallow embedding of the Python sources:
    - control-bot/src/bot.py        (completion, return, balance, deletion)
    - task-scheduler/src/task_scheduler.py  (daily/weekly assignment sweeps)

  Time is modelled as microseconds since an epoch whose day 0 is a Monday;
  a calendar day is `t / usecPerDay`, matching Python's datetime/date split
  (microsecond resolution, so an instant can lie strictly between
  23:59:59 of a day and the start of the next day, as in the source).
  Database rows are Lean structures, tables are lists, SQL UPDATE is a map
  over the matching rows, INSERT is an append, and a rolled-back handler
  leaves the state unchanged.
-/

namespace FamilyBot

/-- Task recurrence kind, column `tasks.type`. -/
inductive TaskType where
  | daily
  | weekly
  | special
deriving DecidableEq, Repr

/-- User role, column `users.role`. -/
inductive Role where
  | admin
  | child
deriving DecidableEq, Repr

/-- Ledger entry kind, column `transactions.type`. -/
inductive TxType where
  | task_reward
  | task_return
  | manual_add
  | manual_remove
deriving DecidableEq, Repr

/-- Microseconds in one calendar day. -/
def usecPerDay : Nat := 86400000000

/-- Calendar day (day index) of an instant. -/
def dayOf (t : Nat) : Nat := t / usecPerDay

/-- The instant 23:59:59 (whole seconds) of calendar day `d`:
`datetime.combine(d, time(23, 59, 59))` in the source. -/
def endOfDay (d : Nat) : Nat := d * usecPerDay + 86399000000

/-- The instant of day `d` at time-of-day `tod` (microseconds):
`datetime.combine(d, tod)` in the source. -/
def combine (d : Nat) (tod : Nat) : Nat := d * usecPerDay + tod

/-- Monday of the ISO week of day `d` (day 0 of the epoch is a Monday):
`DATE_TRUNC('week', d)` in the source SQL. -/
def weekStart (d : Nat) : Nat := d - d % 7

/-- Weekday index of day `d` (0 = monday .. 6 = sunday):
`datetime.weekday()` composed with the source's `weekday_map`. -/
def weekdayOf (d : Nat) : Nat := d % 7

/-- A row of the `tasks` table (a task definition). -/
structure Task where
  task_id : Nat
  title : String
  description : Option String
  task_type : TaskType
  reward : Int
  due_time : Nat
  due_day : Option Nat
  created_by : Nat
  is_active : Bool
deriving DecidableEq, Repr

/-- A row of the `assigned_tasks` table (one assignment of a task to a child). -/
structure Assignment where
  assignment_id : Nat
  task_id : Nat
  child_id : Nat
  assigned_date : Nat
  due_date : Nat
  is_completed : Bool
  completed_at : Option Nat
  reward_received : Option Int
deriving DecidableEq, Repr

/-- A row of the `users` table. -/
structure User where
  user_id : Nat
  full_name : String
  role : Role
  parent_id : Option Nat
  balance : Int
deriving DecidableEq, Repr

/-- A row of the `transactions` ledger table. -/
structure Transaction where
  child_id : Nat
  amount : Int
  tx_type : TxType
  description : String
deriving DecidableEq, Repr

/-- A notification sent to one child by a scheduler sweep: the recipient and
the task ids listed in the combined message. -/
structure Notif where
  child_id : Nat
  task_ids : List Nat
deriving DecidableEq, Repr

/-- The relational store.  `next_assignment_id` models the assignment-id
sequence of the database. -/
structure State where
  tasks : List Task
  users : List User
  assignments : List Assignment
  transactions : List Transaction
  next_assignment_id : Nat
deriving DecidableEq, Repr

/-- SQL `UPDATE assigned_tasks ... WHERE assignment_id = aid`. -/
def updateAssignment (l : List Assignment) (aid : Nat) (f : Assignment → Assignment) :
    List Assignment :=
  l.map (fun a => if a.assignment_id == aid then f a else a)

/-- SQL `UPDATE users SET balance = balance + d WHERE user_id = uid`. -/
def bumpBalance (l : List User) (uid : Nat) (d : Int) : List User :=
  l.map (fun u => if u.user_id == uid then { u with balance := u.balance + d } else u)

/-- SELECT balance FROM users WHERE user_id = uid. -/
def balanceOf (s : State) (uid : Nat) : Option Int :=
  (s.users.find? (fun u => u.user_id == uid)).map User.balance

/-- The `is_admin` role check of bot.py. -/
def is_admin (s : State) (uid : Nat) : Bool :=
  match s.users.find? (fun u => u.user_id == uid) with
  | some u => u.role == Role.admin
  | none => false

/-- Sum of the signed amounts of a child's ledger entries. -/
def ledgerSum (txs : List Transaction) (cid : Nat) : Int :=
  ((txs.filter (fun t => t.child_id == cid)).map Transaction.amount).sum

/-- The core external consistency contract: every stored balance equals the
sum of that child's ledger entries. -/
def BalanceInv (s : State) : Prop :=
  ∀ u ∈ s.users, u.balance = ledgerSum s.transactions u.user_id

/-- The SELECT/JOIN of `handle_complete_task`: the assignment with the given
id, owned by the child and not completed, together with its task row,
provided the child's user row exists. -/
def findEligible (s : State) (aid uid : Nat) : Option (Assignment × Task) :=
  (s.assignments.find? (fun a =>
      a.assignment_id == aid && a.child_id == uid && !a.is_completed)).bind
    (fun a => (s.tasks.find? (fun t => t.task_id == a.task_id)).bind
      (fun t => (s.users.find? (fun u => u.user_id == uid)).map (fun _ => (a, t))))

/-- Result of `handle_complete_task`.  The failure cases correspond to the
three early returns of the handler (rolled back, state unchanged). -/
inductive CompleteResult where
  | notFound
  | inactive
  | expired
  | completed (s : State) (paid : Int)
deriving DecidableEq, Repr

/-- The atomic write block of `handle_complete_task`: mark the assignment
completed, credit the child, and append the `task_reward` ledger entry. -/
def applyCompletion (s : State) (aid uid : Nat) (now : Nat) (paid : Int)
    (title : String) : State :=
  { s with
    assignments := updateAssignment s.assignments aid (fun a =>
      { a with is_completed := true, completed_at := some now,
               reward_received := some paid }),
    users := bumpBalance s.users uid paid,
    transactions := s.transactions ++ [⟨uid, paid, TxType.task_reward, title⟩] }

/-- Embedding of `handle_complete_task` (bot.py, lines 1133-1275), with the
chat I/O stripped: look up the eligible assignment, reject inactive or
expired daily assignments, compute the paid reward (100% on time, floor
half otherwise) and apply the atomic completion write. -/
def handle_complete_task (s : State) (uid aid : Nat) (now : Nat) :
    CompleteResult :=
  match findEligible s aid uid with
  | none => .notFound
  | some (a, t) =>
    let today := dayOf now
    match t.task_type with
    | .special =>
        let paid := if a.due_date < now then Int.fdiv t.reward 2 else t.reward
        .completed (applyCompletion s aid uid now paid t.title) paid
    | tt =>
        if tt == TaskType.daily && !(a.assigned_date == today) then .inactive
        else if endOfDay today < now && tt == TaskType.daily then .expired
        else
          let paid := if now ≤ a.due_date then t.reward else Int.fdiv t.reward 2
          .completed (applyCompletion s aid uid now paid t.title) paid

/-- State reached by `handle_complete_task` (unchanged when it fails). -/
def afterComplete (s : State) (uid aid : Nat) (now : Nat) : State :=
  match handle_complete_task s uid aid now with
  | .completed s' _ => s'
  | _ => s

/-- Result of `handle_return_task`. -/
inductive ReturnResult where
  | notAdmin
  | notFound
  | noReward
  | returned (s : State) (child_id : Nat) (reward : Int)
deriving DecidableEq, Repr

/-- Embedding of `handle_return_task` (bot.py, lines 2491-2596): only an
admin may return; the assignment must be completed and owned (through its
task) by the requesting admin; the recorded reward must be positive; on
success the completion fields are cleared, the child is debited and a
`task_return` ledger entry is appended. -/
def handle_return_task (s : State) (adminId aid : Nat) : ReturnResult :=
  if !is_admin s adminId then .notAdmin
  else
    match s.assignments.find? (fun a => a.assignment_id == aid && a.is_completed) with
    | none => .notFound
    | some a =>
      match s.tasks.find? (fun t => t.task_id == a.task_id) with
      | none => .notFound
      | some t =>
        if !(t.created_by == adminId) then .notFound
        else
          match s.users.find? (fun u => u.user_id == a.child_id) with
          | none => .notFound
          | some _ =>
            match a.reward_received with
            | none => .noReward
            | some r =>
              if r ≤ 0 then .noReward
              else .returned
                { s with
                  assignments := updateAssignment s.assignments aid (fun x =>
                    { x with is_completed := false, completed_at := none,
                             reward_received := none }),
                  users := bumpBalance s.users a.child_id (-r),
                  transactions := s.transactions ++
                    [⟨a.child_id, -r, TxType.task_return, t.title⟩] }
                a.child_id r

/-- State reached by `handle_return_task` (unchanged when it fails). -/
def afterReturn (s : State) (adminId aid : Nat) : State :=
  match handle_return_task s adminId aid with
  | .returned s' _ _ => s'
  | _ => s

/-- Embedding of `add_balance` (bot.py, lines 1607-1629): credit the child and
append a `manual_add` ledger entry. -/
def add_balance (s : State) (cid : Nat) (amount : Int) (descr : String) : State :=
  { s with
    users := bumpBalance s.users cid amount,
    transactions := s.transactions ++ [⟨cid, amount, TxType.manual_add, descr⟩] }

/-- Embedding of `remove_balance` (bot.py, lines 1631-1660): read the child's
balance (failing if the row is absent), refuse when it is below the amount,
otherwise debit and append a `manual_remove` ledger entry with the negated
amount.  `none` is a failure (rolled back, state unchanged). -/
def remove_balance (s : State) (cid : Nat) (amount : Int) (descr : String) :
    Option State :=
  match balanceOf s cid with
  | none => none
  | some b =>
    if b < amount then none
    else some
      { s with
        users := bumpBalance s.users cid (-amount),
        transactions := s.transactions ++ [⟨cid, -amount, TxType.manual_remove, descr⟩] }

/-- State reached by `remove_balance` (unchanged when it fails). -/
def afterRemove (s : State) (cid : Nat) (amount : Int) (descr : String) : State :=
  (remove_balance s cid amount descr).getD s

/-- Modelled from the spec: the cascading effect of `DELETE FROM tasks` on
`assigned_tasks` is configured in the database schema, which is not part of
the sources; per the spec, all non-completed assignments of the task become
void while completed assignments' historical records are preserved. -/
def cascade_assignments (l : List Assignment) (tid : Nat) : List Assignment :=
  l.filter (fun a => !(a.task_id == tid && !a.is_completed))

/-- Embedding of `delete_task` (bot.py, lines 2325-2378): an admin deletes an
owned task; the children holding a non-completed assignment of it are
collected (SELECT DISTINCT), the definition is removed, and the cascade
voids the forward-looking assignments.  `none` is a failure (no state
change). -/
def delete_task (s : State) (adminId tid : Nat) : Option (State × List Nat) :=
  if !is_admin s adminId then none
  else
    match s.tasks.find? (fun t => t.task_id == tid && t.created_by == adminId) with
    | none => none
    | some _ =>
      let affected :=
        ((s.assignments.filter (fun a => a.task_id == tid && !a.is_completed)).map
          Assignment.child_id).dedup
      some
        ({ s with
           tasks := s.tasks.filter (fun t => !(t.task_id == tid)),
           assignments := cascade_assignments s.assignments tid },
         affected)

/-- The complete-button decision of `handle_tasks` (bot.py, lines 980-1111)
for one non-completed assignment of the child, joined with its task: `true`
exactly when the message carries a complete action for it. -/
def taskButton (now : Nat) (t : Task) (a : Assignment) : Bool :=
  let today := dayOf now
  match t.task_type with
  | .special => !(dayOf a.due_date < today)
  | tt =>
    let isToday := a.assigned_date == today
    if !isToday && tt == TaskType.daily then false
    else if now < a.due_date then true
    else if isToday then now ≤ endOfDay today
    else false

/-- Embedding of the child task list of `handle_tasks` (bot.py, lines
935-1123): the assignment ids of the child's non-completed assignments that
are displayed with a complete action. -/
def handle_tasks (s : State) (childId : Nat) (now : Nat) : List Nat :=
  s.assignments.filterMap (fun a =>
    if a.child_id == childId && !a.is_completed then
      match s.tasks.find? (fun t => t.task_id == a.task_id) with
      | some t => if taskButton now t a then some a.assignment_id else none
      | none => none
    else none)

/-- The duplicate check of the daily sweep (task_scheduler.py, lines 124-129):
does an assignment of this task to this child dated today exist (completed
or not)? -/
def hasAssignmentOn (s : State) (tid cid day : Nat) : Bool :=
  s.assignments.any (fun a =>
    a.task_id == tid && a.child_id == cid && a.assigned_date == day)

/-- The duplicate check of the weekly sweep (task_scheduler.py, lines
272-278): does an assignment of this task to this child dated inside the
ISO week of `day` exist? -/
def hasAssignmentInWeek (s : State) (tid cid day : Nat) : Bool :=
  s.assignments.any (fun a =>
    a.task_id == tid && a.child_id == cid &&
    decide (weekStart day ≤ a.assigned_date) &&
    decide (a.assigned_date < weekStart day + 7))

/-- The INSERT of both sweeps: a fresh non-completed assignment of task `t`
to child `cid`, dated `today`, due at today's `due_time`. -/
def insertAssignment (s : State) (t : Task) (cid today : Nat) : State :=
  { s with
    assignments := s.assignments ++
      [⟨s.next_assignment_id, t.task_id, cid, today,
        combine today t.due_time, false, none, none⟩],
    next_assignment_id := s.next_assignment_id + 1 }

/-- The active daily tasks of one admin (task_scheduler.py, lines 87-95). -/
def dailyTasksOf (s : State) (adminId : Nat) : List Task :=
  s.tasks.filter (fun t =>
    t.task_type == TaskType.daily && t.is_active && t.created_by == adminId)

/-- The children served by one admin's sweep (task_scheduler.py, lines
101-108): children of this admin or children with no parent. -/
def childrenOf (s : State) (adminId : Nat) : List User :=
  s.users.filter (fun u =>
    u.role == Role.child && (u.parent_id == some adminId || u.parent_id == none))

/-- One task of the daily sweep's inner loop (task_scheduler.py, lines
119-139): skip if the (task, child, today) assignment already exists,
otherwise insert it and count it. -/
def stepTaskDaily (cid today : Nat) (acc : State × Nat) (t : Task) : State × Nat :=
  if hasAssignmentOn acc.1 t.task_id cid today then acc
  else (insertAssignment acc.1 t cid today, acc.2 + 1)

/-- One child of the daily sweep's outer loop (task_scheduler.py, lines
116-144): assign each missing daily task, and when at least one was newly
assigned send the child one notification — which, in the daily sweep,
lists the admin's whole daily task list. -/
def stepChildDaily (ts : List Task) (today : Nat)
    (acc : State × Nat × List Notif) (c : User) : State × Nat × List Notif :=
  let r := ts.foldl (stepTaskDaily c.user_id today) (acc.1, 0)
  let notifs :=
    if 0 < r.2 then acc.2.2 ++ [⟨c.user_id, ts.map Task.task_id⟩] else acc.2.2
  (r.1, acc.2.1 + r.2, notifs)

/-- Embedding of `TaskScheduler._assign_admin_daily_tasks` (task_scheduler.py,
lines 83-146): returns the new state, the number of assignments created and
the child notifications sent. -/
def assign_admin_daily_tasks (s : State) (adminId today : Nat) :
    State × Nat × List Notif :=
  let ts := dailyTasksOf s adminId
  let cs := childrenOf s adminId
  if ts.isEmpty then (s, 0, [])
  else if cs.isEmpty then (s, 0, [])
  else cs.foldl (stepChildDaily ts today) (s, 0, [])

/-- One task of the weekly sweep's inner loop (task_scheduler.py, lines
268-292): skip if an assignment of the pair exists in the current ISO week,
otherwise insert it, count it and remember it for the child's notification. -/
def stepTaskWeekly (cid today : Nat) (acc : State × Nat × List Task) (t : Task) :
    State × Nat × List Task :=
  if hasAssignmentInWeek acc.1 t.task_id cid today then acc
  else (insertAssignment acc.1 t cid today, acc.2.1 + 1, acc.2.2 ++ [t])

/-- One child of the weekly sweep's outer loop (task_scheduler.py, lines
264-297): assign each missing weekly task; when at least one was newly
assigned, the child's notification lists exactly the newly assigned tasks. -/
def stepChildWeekly (ts : List Task) (today : Nat)
    (acc : State × Nat × List Notif) (c : User) : State × Nat × List Notif :=
  let r := ts.foldl (stepTaskWeekly c.user_id today) (acc.1, 0, [])
  let notifs :=
    if 0 < r.2.1 then acc.2.2 ++ [⟨c.user_id, r.2.2.map Task.task_id⟩] else acc.2.2
  (r.1, acc.2.1 + r.2.1, notifs)

/-- Embedding of `TaskScheduler._assign_admin_weekly_tasks`
(task_scheduler.py, lines 245-299): `ts` is the admin's list of weekly tasks
due today, computed by the caller. -/
def assign_admin_weekly_tasks (s : State) (adminId : Nat) (ts : List Task)
    (today : Nat) : State × Nat × List Notif :=
  let cs := childrenOf s adminId
  if cs.isEmpty then (s, 0, [])
  else cs.foldl (stepChildWeekly ts today) (s, 0, [])

/-! ### Well-formedness: database key uniqueness -/

/-- Primary-key uniqueness of the `assigned_tasks` table. -/
abbrev UniqueAssignmentIds (s : State) : Prop :=
  (s.assignments.map Assignment.assignment_id).Nodup

/-- Primary-key uniqueness of the `users` table. -/
abbrev UniqueUserIds (s : State) : Prop :=
  (s.users.map User.user_id).Nodup

/-! ### Ledger and balance lemmas -/

theorem ledgerSum_append_single (txs : List Transaction) (tx : Transaction)
    (cid : Nat) :
    ledgerSum (txs ++ [tx]) cid =
      ledgerSum txs cid + (if tx.child_id == cid then tx.amount else 0) := by
  by_cases h : tx.child_id == cid <;>
    simp [ledgerSum, List.filter_append, List.filter, h]

theorem bumpBalance_mem {us : List User} {u : User} {cid : Nat} {d : Int}
    (h : u ∈ bumpBalance us cid d) :
    ∃ u0 ∈ us, u = if u0.user_id == cid then { u0 with balance := u0.balance + d }
      else u0 := by
  rcases List.mem_map.1 h with ⟨u0, hu0, rfl⟩
  exact ⟨u0, hu0, rfl⟩

theorem balanceInv_step {us : List User} {txs : List Transaction} (cid : Nat)
    (d : Int) (k : TxType) (descr : String)
    (h : ∀ u ∈ us, u.balance = ledgerSum txs u.user_id) :
    ∀ u ∈ bumpBalance us cid d,
      u.balance = ledgerSum (txs ++ [⟨cid, d, k, descr⟩]) u.user_id := by
  intro u hu
  rcases bumpBalance_mem hu with ⟨u0, hu0, rfl⟩
  by_cases hc : u0.user_id == cid
  · have hcc : cid == u0.user_id := by
      simp only [beq_iff_eq] at hc ⊢; omega
    simp [hc, ledgerSum_append_single, hcc, h u0 hu0]
  · have hcc : (cid == u0.user_id) = false := by
      simp only [beq_iff_eq, beq_eq_false_iff_ne, ne_eq] at hc ⊢; omega
    simp [hc, ledgerSum_append_single, hcc, h u0 hu0]

theorem find?_ext {α : Type} (p q : α → Bool) (l : List α)
    (h : ∀ x ∈ l, p x = q x) : l.find? p = l.find? q := by
  induction l with
  | nil => rfl
  | cons x xs ih =>
    simp only [List.find?_cons, h x (List.mem_cons_self x xs)]
    cases hq : q x
    · simp only [cond_false]
      exact ih (fun y hy => h y (List.mem_cons_of_mem x hy))
    · rfl

theorem find?_bumpBalance (us : List User) (cid uid : Nat) (d : Int) :
    (bumpBalance us cid d).find? (fun u => u.user_id == uid) =
      ((us.find? (fun u => u.user_id == uid)).map
        (fun u => if u.user_id == cid then { u with balance := u.balance + d }
          else u)) := by
  simp only [bumpBalance, List.find?_map]
  rw [find?_ext _ (fun u => u.user_id == uid)]
  intro u _
  by_cases h : u.user_id == cid <;> simp [h, Function.comp]

theorem balanceOf_bump (s : State) (us' : List User) (cid : Nat) (d : Int)
    (A : List Assignment) (T : List Transaction) (n : Nat)
    (h : us' = bumpBalance s.users cid d) :
    balanceOf { tasks := s.tasks, users := us', assignments := A,
                transactions := T, next_assignment_id := n } cid =
      (balanceOf s cid).map (fun b => b + d) := by
  subst h
  simp only [balanceOf, find?_bumpBalance]
  rcases hf : s.users.find? (fun u => u.user_id == cid) with _ | u
  · rw [hf]; rfl
  · rw [hf]
    have huid : u.user_id = cid := by simpa using List.find?_some hf
    simp [huid]

theorem is_admin_of_users_eq {s s' : State} (h : s'.users = s.users)
    (uid : Nat) : is_admin s' uid = is_admin s uid := by
  simp [is_admin, h]

/-! ### find? decomposition under key uniqueness -/

theorem find?_eq_none_of_no_key {α : Type} (key : α → Nat) (l : List α)
    (aid : Nat) (p : α → Bool) (h : ∀ x ∈ l, key x ≠ aid) :
    l.find? (fun x => key x == aid && p x) = none := by
  apply List.find?_eq_none.2
  intro x hx
  simp [h x hx]

theorem find?_key_and {α : Type} (key : α → Nat) (l : List α) (aid : Nat)
    (p : α → Bool) (hnd : (l.map key).Nodup) :
    l.find? (fun x => key x == aid && p x) =
      (l.find? (fun x => key x == aid)).bind
        (fun a => if p a then some a else none) := by
  induction l with
  | nil => simp
  | cons x xs ih =>
    simp only [List.map_cons, List.nodup_cons] at hnd
    by_cases hx : key x == aid
    · have hrest : ∀ y ∈ xs, key y ≠ aid := by
        intro y hy
        have hne := hnd.1
        simp only [beq_iff_eq] at hx
        intro hkey
        exact hne (hx ▸ hkey ▸ List.mem_map_of_mem key hy)
      by_cases hp : p x
      · simp [List.find?_cons, hx, hp]
      · simp only [List.find?_cons, hx, hp, Bool.and_false, cond_false,
          Bool.and_true, cond_true, Option.bind_some]
        rw [find?_eq_none_of_no_key key xs aid p hrest]
        simp [hp]
    · simp only [List.find?_cons, hx, Bool.false_and, cond_false]
      exact ih hnd.2

theorem find?_updateAssignment (l : List Assignment) (aid : Nat)
    (f : Assignment → Assignment)
    (hf : ∀ a, (f a).assignment_id = a.assignment_id) :
    (updateAssignment l aid f).find? (fun a => a.assignment_id == aid) =
      (l.find? (fun a => a.assignment_id == aid)).map
        (fun a => if a.assignment_id == aid then f a else a) := by
  simp only [updateAssignment, List.find?_map]
  rw [find?_ext _ (fun a => a.assignment_id == aid)]
  intro a _
  by_cases h : a.assignment_id == aid <;> simp [h, Function.comp, hf]

/-! ### Inversion of handle_complete_task -/

theorem complete_completed_elim {s : State} {uid aid : Nat} {now : Nat}
    {s' : State} {paid : Int}
    (h : handle_complete_task s uid aid now = .completed s' paid) :
    ∃ a t, findEligible s aid uid = some (a, t) ∧
      s' = applyCompletion s aid uid now paid t.title ∧
      ((t.task_type = .special ∧
          paid = (if a.due_date < now then Int.fdiv t.reward 2 else t.reward)) ∨
       (t.task_type ≠ .special ∧
          ¬(t.task_type = .daily ∧ a.assigned_date ≠ dayOf now) ∧
          ¬(endOfDay (dayOf now) < now ∧ t.task_type = .daily) ∧
          paid = (if now ≤ a.due_date then t.reward else Int.fdiv t.reward 2))) := by
  unfold handle_complete_task at h
  rcases hE : findEligible s aid uid with _ | ⟨a, t⟩ <;> rw [hE] at h
  · exact absurd h (by simp)
  · refine ⟨a, t, rfl, ?_⟩
    rcases ht : t.task_type with _ | _ | _ <;> simp only [ht] at h
    · by_cases h1 : a.assigned_date = dayOf now
      · by_cases h2 : endOfDay (dayOf now) < now
        · simp [h1, h2] at h
        · rw [if_neg (by simp [h1]), if_neg (by simp [h2])] at h
          simp only [CompleteResult.completed.injEq] at h
          obtain ⟨hs', hp⟩ := h
          subst hp
          exact ⟨hs'.symm, Or.inr ⟨by simp [ht], fun hc => hc.2 h1,
            fun hc => h2 hc.1, rfl⟩⟩
      · simp [h1] at h
    · rw [if_neg (by simp), if_neg (by simp)] at h
      simp only [CompleteResult.completed.injEq] at h
      obtain ⟨hs', hp⟩ := h
      subst hp
      exact ⟨hs'.symm, Or.inr ⟨by simp [ht], fun hc => by simp [ht] at hc,
        fun hc => by simp [ht] at hc, rfl⟩⟩
    · simp only [CompleteResult.completed.injEq] at h
      obtain ⟨hs', hp⟩ := h
      subst hp
      exact ⟨hs'.symm, Or.inl ⟨rfl, rfl⟩⟩

/-! ### Inversion of handle_return_task -/

theorem return_returned_elim {s : State} {adminId aid : Nat} {s' : State}
    {cid : Nat} {r : Int}
    (h : handle_return_task s adminId aid = .returned s' cid r) :
    is_admin s adminId = true ∧
    ∃ a t,
      s.assignments.find? (fun x => x.assignment_id == aid && x.is_completed) =
        some a ∧
      s.tasks.find? (fun x => x.task_id == a.task_id) = some t ∧
      t.created_by = adminId ∧
      (∃ u, s.users.find? (fun x => x.user_id == a.child_id) = some u) ∧
      a.reward_received = some r ∧ 0 < r ∧ cid = a.child_id ∧
      s' = { s with
        assignments := updateAssignment s.assignments aid (fun x =>
          { x with is_completed := false, completed_at := none,
                   reward_received := none }),
        users := bumpBalance s.users a.child_id (-r),
        transactions := s.transactions ++
          [⟨a.child_id, -r, TxType.task_return, t.title⟩] } := by
  unfold handle_return_task at h
  by_cases hA : is_admin s adminId = true
  · rw [if_neg (by simp [hA])] at h
    rcases hfa : s.assignments.find?
        (fun x => x.assignment_id == aid && x.is_completed) with _ | a <;>
      simp only [hfa] at h
    · exact absurd h (by simp)
    · rcases hft : s.tasks.find? (fun x => x.task_id == a.task_id) with _ | t <;>
        simp only [hft] at h
      · exact absurd h (by simp)
      · by_cases hcb : t.created_by = adminId
        · rw [if_neg (by simp [hcb])] at h
          rcases hfu : s.users.find? (fun x => x.user_id == a.child_id)
              with _ | u <;> simp only [hfu] at h
          · exact absurd h (by simp)
          · rcases hrr : a.reward_received with _ | r0 <;> simp only [hrr] at h
            · exact absurd h (by simp)
            · by_cases hr0 : r0 ≤ 0
              · rw [if_pos hr0] at h
                exact absurd h (by simp)
              · rw [if_neg hr0] at h
                simp only [ReturnResult.returned.injEq] at h
                obtain ⟨hs', hcid, hrP⟩ := h
                subst hrP; subst hcid; subst hs'
                exact ⟨hA, a, t, hfa, hft, hcb, ⟨u, hfu⟩, hrr, by omega,
                  rfl, rfl⟩
        · rw [if_pos (by simp [hcb])] at h
          exact absurd h (by simp)
  · rw [if_pos (by simp [Bool.eq_false_iff.2 (fun hc => hA hc)])] at h
    exact absurd h (by simp)

/-! ### C1: balance equals ledger sum -/

/-- C1: each of the four balance-changing operations (task completion, task
return, manual addition, manual removal) preserves the invariant that every
child's stored balance is the sum of that child's ledger entries, and each,
when it changes a balance, appends in the same atomic write exactly one
ledger entry whose amount equals the balance delta. -/
theorem c1_balance_equals_ledger (s : State) (uid aid cid2 : Nat)
    (now : Nat) (amount : Int) (d1 d2 : String) (hinv : BalanceInv s) :
    BalanceInv (afterComplete s uid aid now) ∧
    BalanceInv (afterReturn s uid aid) ∧
    BalanceInv (add_balance s cid2 amount d1) ∧
    BalanceInv (afterRemove s cid2 amount d2) ∧
    (∀ s' paid, handle_complete_task s uid aid now = .completed s' paid →
      ∃ tx, s'.transactions = s.transactions ++ [tx] ∧ tx.child_id = uid ∧
        tx.amount = paid ∧
        balanceOf s' uid = (balanceOf s uid).map (fun b => b + paid)) ∧
    (∀ s' c r, handle_return_task s uid aid = .returned s' c r →
      ∃ tx, s'.transactions = s.transactions ++ [tx] ∧ tx.child_id = c ∧
        tx.amount = -r ∧
        balanceOf s' c = (balanceOf s c).map (fun b => b + (-r))) ∧
    (∃ tx, (add_balance s cid2 amount d1).transactions = s.transactions ++ [tx] ∧
      tx.child_id = cid2 ∧ tx.amount = amount ∧
      balanceOf (add_balance s cid2 amount d1) cid2 =
        (balanceOf s cid2).map (fun b => b + amount)) ∧
    (∀ s', remove_balance s cid2 amount d2 = some s' →
      ∃ tx, s'.transactions = s.transactions ++ [tx] ∧ tx.child_id = cid2 ∧
        tx.amount = -amount ∧
        balanceOf s' cid2 = (balanceOf s cid2).map (fun b => b + (-amount))) := by
  refine ⟨?_, ?_, ?_, ?_, ?_, ?_, ?_, ?_⟩
  · rcases hr : handle_complete_task s uid aid now with _ | _ | _ | ⟨s', paid⟩ <;>
      simp only [afterComplete, hr]
    · exact hinv
    · exact hinv
    · exact hinv
    · obtain ⟨a, t, _, hs', _⟩ := complete_completed_elim hr
      subst hs'
      intro u hu
      exact balanceInv_step uid paid TxType.task_reward t.title hinv u hu
  · rcases hr : handle_return_task s uid aid with _ | _ | _ | ⟨s', c, r⟩ <;>
      simp only [afterReturn, hr]
    · exact hinv
    · exact hinv
    · exact hinv
    · obtain ⟨_, a, t, _, _, _, _, _, _, _, hs'⟩ := return_returned_elim hr
      subst hs'
      intro u hu
      exact balanceInv_step a.child_id (-r) TxType.task_return t.title hinv u hu
  · intro u hu
    exact balanceInv_step cid2 amount TxType.manual_add d1 hinv u hu
  · unfold afterRemove remove_balance
    rcases hb : balanceOf s cid2 with _ | b <;> simp only [hb]
    · exact hinv
    · by_cases hlt : b < amount
      · rw [if_pos hlt]; exact hinv
      · rw [if_neg hlt]
        intro u hu
        exact balanceInv_step cid2 (-amount) TxType.manual_remove d2 hinv u hu
  · intro s' paid hr
    obtain ⟨a, t, _, hs', _⟩ := complete_completed_elim hr
    subst hs'
    exact ⟨⟨uid, paid, TxType.task_reward, t.title⟩, rfl, rfl, rfl,
      balanceOf_bump s _ uid paid _ _ _ rfl⟩
  · intro s' c r hr
    obtain ⟨_, a, t, _, _, _, _, _, _, hc, hs'⟩ := return_returned_elim hr
    subst hs'; subst hc
    exact ⟨⟨a.child_id, -r, TxType.task_return, t.title⟩, rfl, rfl, rfl,
      balanceOf_bump s _ a.child_id (-r) _ _ _ rfl⟩
  · exact ⟨⟨cid2, amount, TxType.manual_add, d1⟩, rfl, rfl, rfl,
      balanceOf_bump s _ cid2 amount _ _ _ rfl⟩
  · intro s' hr
    unfold remove_balance at hr
    rcases hb : balanceOf s cid2 with _ | b <;> simp only [hb] at hr
    · exact absurd hr (by simp)
    · by_cases hlt : b < amount
      · rw [if_pos hlt] at hr
        exact absurd hr (by simp)
      · rw [if_neg hlt] at hr
        simp only [Option.some.injEq] at hr
        subst hr
        have hbb := balanceOf_bump s _ cid2 (-amount) s.assignments
          (s.transactions ++ [⟨cid2, -amount, TxType.manual_remove, d2⟩])
          s.next_assignment_id rfl
        rw [hb] at hbb
        exact ⟨⟨cid2, -amount, TxType.manual_remove, d2⟩, rfl, rfl, rfl, hbb⟩

/-- Witness for C1 at a concrete state satisfying the invariant. -/
theorem c1_balance_equals_ledger_witness :
    BalanceInv ⟨[], [⟨20, "C", Role.child, some 1, 3⟩],
      [], [⟨20, 3, TxType.manual_add, "x"⟩], 1⟩ ∧
    BalanceInv (add_balance ⟨[], [⟨20, "C", Role.child, some 1, 3⟩],
      [], [⟨20, 3, TxType.manual_add, "x"⟩], 1⟩ 20 5 "y") := by
  have h0 : BalanceInv ⟨[], [⟨20, "C", Role.child, some 1, 3⟩],
      [], [⟨20, 3, TxType.manual_add, "x"⟩], 1⟩ := by
    intro u hu
    simp only [List.mem_singleton] at hu
    subst hu
    decide
  exact ⟨h0, (c1_balance_equals_ledger _ 20 1 20 0 5 "y" "y" h0).2.2.1⟩

/-! ### Concrete example states used by witnesses and counterexamples -/

/-- Example admin user. -/
def exAdmin : User := ⟨1, "A", Role.admin, none, 0⟩

/-- Example child user. -/
def exChild : User := ⟨20, "C", Role.child, some 1, 0⟩

/-- Example daily task: reward 10, due 18:00, owned by admin 1. -/
def exDaily : Task := ⟨100, "dishes", none, TaskType.daily, 10, 64800000000, none, 1, true⟩

/-- Example weekly task: reward 50, due monday 18:00, owned by admin 1. -/
def exWeekly : Task := ⟨101, "vacuum", none, TaskType.weekly, 50, 64800000000, some 0, 1, true⟩

/-- Example daily assignment to child 20 on day 9, due 18:00 that day. -/
def exDailyAsg : Assignment := ⟨1, 100, 20, 9, combine 9 64800000000, false, none, none⟩

/-- Example weekly assignment to child 20 on day 7 (a Monday), due 18:00. -/
def exWeeklyAsg : Assignment := ⟨1, 101, 20, 7, combine 7 64800000000, false, none, none⟩

/-- Example store holding the daily assignment. -/
def exStateDaily : State := ⟨[exDaily], [exAdmin, exChild], [exDailyAsg], [], 2⟩

/-- Example store holding the weekly assignment. -/
def exStateWeekly : State := ⟨[exWeekly], [exAdmin, exChild], [exWeeklyAsg], [], 2⟩

/-- Day-9 17:00, one hour before the daily deadline. -/
def exNowOnTime : Nat := combine 9 61200000000

/-- Day-9 10:00, two days after the weekly assignment's day. -/
def exNowLate : Nat := combine 9 36000000000

/-- The store after the on-time completion of the daily assignment. -/
def exStateDailyDone : State := afterComplete exStateDaily 20 1 exNowOnTime

/-- The store after the late completion of the weekly assignment. -/
def exStateWeeklyDone : State := afterComplete exStateWeekly 20 1 exNowLate

/-! ### C2: on-time completion pays the nominal reward -/

/-- C2: for every eligible completion happening on or before the assignment's
due instant, the paid reward is the task's nominal reward and the child's
balance rises by exactly that amount, with the matching ledger entry. -/
theorem c2_on_time_full_reward (s : State) (uid aid : Nat) (now : Nat)
    (a : Assignment) (t : Task) (s' : State) (paid : Int)
    (hE : findEligible s aid uid = some (a, t))
    (hC : handle_complete_task s uid aid now = .completed s' paid)
    (hdue : now ≤ a.due_date) :
    paid = t.reward ∧
    s'.transactions = s.transactions ++
      [⟨uid, t.reward, TxType.task_reward, t.title⟩] ∧
    balanceOf s' uid = (balanceOf s uid).map (fun b => b + t.reward) := by
  obtain ⟨a', t', hE', hs', hcase⟩ := complete_completed_elim hC
  rw [hE] at hE'
  simp only [Option.some.injEq, Prod.mk.injEq] at hE'
  obtain ⟨ha, ht⟩ := hE'
  subst ha; subst ht
  have hpaid : paid = t.reward := by
    rcases hcase with ⟨_, hp⟩ | ⟨_, _, _, hp⟩
    · rw [hp, if_neg (Nat.not_lt.mpr hdue)]
    · rw [hp, if_pos hdue]
  subst hpaid
  subst hs'
  exact ⟨rfl, rfl, balanceOf_bump s _ uid t.reward _ _ _ rfl⟩

/-- Witness for C2: daily assignment completed at 17:00 against an 18:00
deadline pays the nominal 10 points. -/
theorem c2_on_time_full_reward_witness :
    exNowOnTime ≤ exDailyAsg.due_date ∧
    ((10 : Int) = exDaily.reward ∧
      exStateDailyDone.transactions = exStateDaily.transactions ++
        [⟨20, exDaily.reward, TxType.task_reward, exDaily.title⟩] ∧
      balanceOf exStateDailyDone 20 =
        (balanceOf exStateDaily 20).map (fun b => b + exDaily.reward)) :=
  ⟨by decide, c2_on_time_full_reward exStateDaily 20 1 exNowOnTime exDailyAsg
    exDaily exStateDailyDone 10 (by decide) (by decide) (by decide)⟩

/-! ### C3: late completion pays the floored half reward -/

/-- C3: every eligible completion happening strictly after the due instant
pays the nominal reward floor-divided by two — for special tasks however
late, for weekly tasks for any later completion, and for daily tasks in
their remaining same-day window — and a nominal reward of 1 floors to 0. -/
theorem c3_late_half_reward (s : State) (uid aid : Nat) (now : Nat)
    (a : Assignment) (t : Task) (s' : State) (paid : Int)
    (hE : findEligible s aid uid = some (a, t))
    (hC : handle_complete_task s uid aid now = .completed s' paid)
    (hlate : a.due_date < now) :
    paid = Int.fdiv t.reward 2 ∧
    (t.reward = 1 → paid = 0) ∧
    s'.transactions = s.transactions ++
      [⟨uid, paid, TxType.task_reward, t.title⟩] ∧
    balanceOf s' uid = (balanceOf s uid).map (fun b => b + paid) := by
  obtain ⟨a', t', hE', hs', hcase⟩ := complete_completed_elim hC
  rw [hE] at hE'
  simp only [Option.some.injEq, Prod.mk.injEq] at hE'
  obtain ⟨ha, ht⟩ := hE'
  subst ha; subst ht
  have hpaid : paid = Int.fdiv t.reward 2 := by
    rcases hcase with ⟨_, hp⟩ | ⟨_, _, _, hp⟩
    · rw [hp, if_pos hlate]
    · rw [hp, if_neg (Nat.not_le.mpr hlate)]
  subst hs'
  refine ⟨hpaid, fun h1 => by rw [hpaid, h1]; decide, rfl,
    balanceOf_bump s _ uid paid _ _ _ rfl⟩

/-- Witness for C3: weekly assignment of reward 50 completed two days late
pays 25. -/
theorem c3_late_half_reward_witness :
    exWeeklyAsg.due_date < exNowLate ∧
    ((25 : Int) = Int.fdiv exWeekly.reward 2 ∧
      (exWeekly.reward = 1 → (25 : Int) = 0) ∧
      exStateWeeklyDone.transactions = exStateWeekly.transactions ++
        [⟨20, 25, TxType.task_reward, exWeekly.title⟩] ∧
      balanceOf exStateWeeklyDone 20 =
        (balanceOf exStateWeekly 20).map (fun b => b + 25)) :=
  ⟨by decide, c3_late_half_reward exStateWeekly 20 1 exNowLate exWeeklyAsg
    exWeekly exStateWeeklyDone 25 (by decide) (by decide) (by decide)⟩

/-! ### Helper lemmas for the return path -/

theorem findEligible_elim {s : State} {aid uid : Nat} {a : Assignment} {t : Task}
    (hE : findEligible s aid uid = some (a, t)) :
    s.assignments.find? (fun x =>
      x.assignment_id == aid && x.child_id == uid && !x.is_completed) = some a ∧
    s.tasks.find? (fun x => x.task_id == a.task_id) = some t ∧
    (∃ u, s.users.find? (fun x => x.user_id == uid) = some u) ∧
    a.assignment_id = aid ∧ a.child_id = uid ∧ a.is_completed = false := by
  unfold findEligible at hE
  rcases hfa : s.assignments.find? (fun x =>
      x.assignment_id == aid && x.child_id == uid && !x.is_completed)
    with _ | a0
  · rw [hfa] at hE
    exact absurd hE (by simp)
  · rw [hfa, Option.some_bind] at hE
    rcases hft : s.tasks.find? (fun x => x.task_id == a0.task_id) with _ | t0
    · rw [hft] at hE
      exact absurd hE (by simp)
    · rw [hft, Option.some_bind] at hE
      rcases hfu : s.users.find? (fun x => x.user_id == uid) with _ | u
      · rw [hfu] at hE
        exact absurd hE (by simp)
      · rw [hfu] at hE
        simp only [Option.map_some', Option.some.injEq, Prod.mk.injEq] at hE
        obtain ⟨ha, ht⟩ := hE
        subst ha; subst ht
        have hp := List.find?_some hfa
        simp only [Bool.and_eq_true, beq_iff_eq, Bool.not_eq_eq_eq_not,
          Bool.not_true] at hp
        exact ⟨hfa, hft, ⟨u, hfu⟩, hp.1.1, hp.1.2, hp.2⟩

theorem updateAssignment_map_id (l : List Assignment) (aid : Nat)
    (f : Assignment → Assignment)
    (hf : ∀ a, (f a).assignment_id = a.assignment_id) :
    (updateAssignment l aid f).map Assignment.assignment_id =
      l.map Assignment.assignment_id := by
  simp only [updateAssignment, List.map_map]
  apply List.map_congr_left
  intro a _
  by_cases h : a.assignment_id == aid <;> simp [h, Function.comp, hf]

theorem is_admin_bump (s : State) (cid uid : Nat) (d : Int)
    (A : List Assignment) (T : List Transaction) (n : Nat) :
    is_admin { tasks := s.tasks, users := bumpBalance s.users cid d,
               assignments := A, transactions := T,
               next_assignment_id := n } uid = is_admin s uid := by
  simp only [is_admin, find?_bumpBalance]
  rcases hf : s.users.find? (fun u => u.user_id == uid) with _ | u
  · rw [hf]; rfl
  · rw [hf]
    by_cases h : u.user_id = cid <;> simp [h]

theorem find?_completed_split {s : State} {aid : Nat} {a : Assignment}
    (hnd : UniqueAssignmentIds s)
    (hfa : s.assignments.find? (fun x => x.assignment_id == aid) = some a) :
    s.assignments.find? (fun x => x.assignment_id == aid && x.is_completed) =
      if a.is_completed then some a else none := by
  rw [find?_key_and Assignment.assignment_id s.assignments aid
    (fun x => x.is_completed) hnd, hfa]
  rfl

theorem find?_id_of_find?_open {s : State} {aid uid : Nat} {a : Assignment}
    (hnd : UniqueAssignmentIds s)
    (hfa : s.assignments.find? (fun x =>
      x.assignment_id == aid && x.child_id == uid && !x.is_completed) = some a) :
    s.assignments.find? (fun x => x.assignment_id == aid) = some a := by
  have hmem : a ∈ s.assignments := List.mem_of_find?_eq_some hfa
  have hpa := List.find?_some hfa
  simp only [Bool.and_eq_true, beq_iff_eq] at hpa
  rcases hf0 : s.assignments.find? (fun x => x.assignment_id == aid) with _ | a0
  · have := List.find?_eq_none.1 hf0 a hmem
    simp [hpa.1.1] at this
  · have hmem0 : a0 ∈ s.assignments := List.mem_of_find?_eq_some hf0
    have hpa0 := List.find?_some hf0
    simp only [beq_iff_eq] at hpa0
    have : a0 = a :=
      List.inj_on_of_nodup_map hnd hmem0 hmem (by rw [hpa0, hpa.1.1])
    rw [← this]
    exact hf0

/-- Evaluation of `handle_return_task` on the success path, given the row
lookups. -/
theorem handle_return_eval (s : State) (adminId aid : Nat) (a : Assignment)
    (t : Task) (u : User) (r : Int)
    (hadm : is_admin s adminId = true)
    (hfa : s.assignments.find? (fun x => x.assignment_id == aid && x.is_completed) =
      some a)
    (hft : s.tasks.find? (fun x => x.task_id == a.task_id) = some t)
    (hcb : t.created_by = adminId)
    (hfu : s.users.find? (fun x => x.user_id == a.child_id) = some u)
    (hrr : a.reward_received = some r) (hpos : 0 < r) :
    handle_return_task s adminId aid = .returned
      { s with
        assignments := updateAssignment s.assignments aid (fun x =>
          { x with is_completed := false, completed_at := none,
                   reward_received := none }),
        users := bumpBalance s.users a.child_id (-r),
        transactions := s.transactions ++
          [⟨a.child_id, -r, TxType.task_return, t.title⟩] }
      a.child_id r := by
  unfold handle_return_task
  rw [if_neg (by simp [hadm])]
  simp only [hfa, hft, hfu, hrr]
  rw [if_neg (by simp [hcb]), if_neg (not_le.mpr hpos)]

/-! ### C7: preconditions of the return operation -/

/-- C7: the return operation succeeds only when the assignment is completed,
its recorded reward is a positive value and the owning task's creator is the
requesting admin; whenever any of the three preconditions fails the call
returns a failure and the store is unchanged, and on success the completion
fields are cleared. -/
theorem c7_return_preconditions (s : State) (adminId aid : Nat)
    (a : Assignment) (hnd : UniqueAssignmentIds s)
    (hfa : s.assignments.find? (fun x => x.assignment_id == aid) = some a) :
    (a.is_completed = false →
      ∀ s' c r, handle_return_task s adminId aid ≠ .returned s' c r) ∧
    (a.reward_received = none →
      ∀ s' c r, handle_return_task s adminId aid ≠ .returned s' c r) ∧
    (∀ r0, a.reward_received = some r0 → r0 ≤ 0 →
      ∀ s' c r, handle_return_task s adminId aid ≠ .returned s' c r) ∧
    (∀ t, s.tasks.find? (fun x => x.task_id == a.task_id) = some t →
      t.created_by ≠ adminId →
      ∀ s' c r, handle_return_task s adminId aid ≠ .returned s' c r) ∧
    ((∀ s' c r, handle_return_task s adminId aid ≠ .returned s' c r) →
      afterReturn s adminId aid = s) ∧
    (∀ s' c r, handle_return_task s adminId aid = .returned s' c r →
      a.is_completed = true ∧ a.reward_received = some r ∧ 0 < r ∧
      (∃ t, s.tasks.find? (fun x => x.task_id == a.task_id) = some t ∧
        t.created_by = adminId) ∧
      c = a.child_id ∧
      s'.assignments.find? (fun x => x.assignment_id == aid) =
        some { a with is_completed := false, completed_at := none,
                      reward_received := none }) := by
  have hsplit := find?_completed_split hnd hfa
  have key : ∀ s' c r, handle_return_task s adminId aid = .returned s' c r →
      a.is_completed = true ∧ a.reward_received = some r ∧ 0 < r ∧
      c = a.child_id ∧
      ∃ t, s.tasks.find? (fun x => x.task_id == a.task_id) = some t ∧
        t.created_by = adminId ∧
        s' = { s with
          assignments := updateAssignment s.assignments aid (fun x =>
            { x with is_completed := false, completed_at := none,
                     reward_received := none }),
          users := bumpBalance s.users a.child_id (-r),
          transactions := s.transactions ++
            [⟨a.child_id, -r, TxType.task_return, t.title⟩] } := by
    intro s' c r h
    obtain ⟨hA, a2, t2, h1, hft2, hcb2, hu2, hrr2, hpos2, hcid2, hs'2⟩ :=
      return_returned_elim h
    by_cases hc : a.is_completed = true
    · rw [hsplit, if_pos hc] at h1
      simp only [Option.some.injEq] at h1
      subst h1
      exact ⟨hc, hrr2, hpos2, hcid2, t2, hft2, hcb2, hs'2⟩
    · rw [hsplit, if_neg hc] at h1
      exact absurd h1 (by simp)
  refine ⟨?_, ?_, ?_, ?_, ?_, ?_⟩
  · intro hnc s' c r h
    obtain ⟨hc, _⟩ := key s' c r h
    rw [hnc] at hc
    exact absurd hc (by simp)
  · intro hrn s' c r h
    obtain ⟨_, hrr, _⟩ := key s' c r h
    rw [hrn] at hrr
    exact absurd hrr (by simp)
  · intro r0 hr0 hle s' c r h
    obtain ⟨_, hrr, hpos, _⟩ := key s' c r h
    rw [hr0] at hrr
    simp only [Option.some.injEq] at hrr
    omega
  · intro t hft hne s' c r h
    obtain ⟨_, _, _, _, t2, hft2, hcb2, _⟩ := key s' c r h
    rw [hft] at hft2
    simp only [Option.some.injEq] at hft2
    subst hft2
    exact hne hcb2
  · intro hfail
    unfold afterReturn
    rcases hres : handle_return_task s adminId aid with _ | _ | _ | ⟨s', c, r⟩
    · rfl
    · rfl
    · rfl
    · exact absurd hres (hfail s' c r)
  · intro s' c r h
    obtain ⟨hc, hrr, hpos, hcid, t, hft, hcb, hs'⟩ := key s' c r h
    subst hs'
    refine ⟨hc, hrr, hpos, ⟨t, hft, hcb⟩, hcid, ?_⟩
    have hidb : (a.assignment_id == aid) = true := by
      simpa using List.find?_some hfa
    have h' := find?_updateAssignment s.assignments aid (fun x =>
      { x with is_completed := false, completed_at := none,
               reward_received := none }) (fun x => rfl)
    rw [hfa] at h'
    simp only [Option.map_some'] at h'
    rw [if_pos hidb] at h'
    exact h'

/-- The store after returning the completed weekly assignment. -/
def exStateWeeklyReturned : State := afterReturn exStateWeeklyDone 1 1

/-- The completed form of the example weekly assignment. -/
def exWeeklyAsgDone : Assignment :=
  { exWeeklyAsg with
    is_completed := true
    completed_at := some exNowLate
    reward_received := some 25 }

/-- Witness for C7: the successful return of the completed weekly assignment
satisfies all three preconditions and clears the completion fields. -/
theorem c7_return_preconditions_witness :
    UniqueAssignmentIds exStateWeeklyDone ∧
    (exStateWeeklyDone.assignments.find? (fun x => x.assignment_id == 1) =
      some exWeeklyAsgDone) ∧
    (exWeeklyAsgDone.is_completed = true ∧
     exWeeklyAsgDone.reward_received = some 25 ∧
     (0 : Int) < 25 ∧
     (∃ t, exStateWeeklyDone.tasks.find?
        (fun x => x.task_id == exWeeklyAsgDone.task_id) = some t ∧
        t.created_by = 1) ∧
     (20 : Nat) = exWeeklyAsgDone.child_id ∧
     exStateWeeklyReturned.assignments.find? (fun x => x.assignment_id == 1) =
       some { exWeeklyAsgDone with
              is_completed := false
              completed_at := none
              reward_received := none }) := by
  refine ⟨by decide, by decide, ?_⟩
  exact (c7_return_preconditions exStateWeeklyDone 1 1 exWeeklyAsgDone
      (by decide) (by decide)).2.2.2.2.2
    exStateWeeklyReturned 20 25 (by decide)

/-! ### C4: complete followed by return is a round trip -/

/-- C4: completing an assignment and then returning it (by the owning admin,
with a positive paid reward) restores the assignment to is_completed = false,
completed_at = null and reward_received = null in its original period, and
leaves the child's balance exactly at its pre-completion value — the +r and
-r ledger entries net to zero. -/
theorem c4_complete_return_round_trip (s : State) (uid aid adminId : Nat)
    (now : Nat) (a : Assignment) (t : Task) (s1 : State) (r : Int)
    (hnd : UniqueAssignmentIds s)
    (hE : findEligible s aid uid = some (a, t))
    (hC : handle_complete_task s uid aid now = .completed s1 r)
    (hr : 0 < r) (hadm : is_admin s adminId = true)
    (hown : t.created_by = adminId) :
    ∃ s2, handle_return_task s1 adminId aid = .returned s2 uid r ∧
      s2.assignments.find? (fun x => x.assignment_id == aid) =
        some { a with is_completed := false, completed_at := none,
                      reward_received := none } ∧
      s2.assignments.map Assignment.assigned_date =
        s.assignments.map Assignment.assigned_date ∧
      balanceOf s2 uid = balanceOf s uid ∧
      s2.transactions = s.transactions ++
        [⟨uid, r, TxType.task_reward, t.title⟩,
         ⟨uid, -r, TxType.task_return, t.title⟩] ∧
      ledgerSum s2.transactions uid = ledgerSum s.transactions uid := by
  obtain ⟨a2, t2, hE2, hs1, _⟩ := complete_completed_elim hC
  rw [hE] at hE2
  simp only [Option.some.injEq, Prod.mk.injEq] at hE2
  obtain ⟨ha2, ht2⟩ := hE2
  subst ha2; subst ht2
  obtain ⟨hfa3, hft, ⟨u, hfu⟩, hid, hchild, _⟩ := findEligible_elim hE
  subst hchild
  have hfid : s.assignments.find? (fun x => x.assignment_id == aid) = some a :=
    find?_id_of_find?_open hnd hfa3
  have hidb : (a.assignment_id == aid) = true := by simp [hid]
  subst hs1
  -- abbreviations for the two row-update functions
  set markC : Assignment → Assignment := fun x =>
    { x with is_completed := true, completed_at := some now,
             reward_received := some r } with hmark
  -- the completed state, component by component
  have hnd1 : UniqueAssignmentIds (applyCompletion s aid a.child_id now r t.title) := by
    have h' := updateAssignment_map_id s.assignments aid markC (fun x => rfl)
    show (List.map Assignment.assignment_id
      (updateAssignment s.assignments aid markC)).Nodup
    rw [h']
    exact hnd
  have hadm1 : is_admin (applyCompletion s aid a.child_id now r t.title) adminId = true := by
    have h' := is_admin_bump s a.child_id adminId r
      (updateAssignment s.assignments aid markC)
      (s.transactions ++ [⟨a.child_id, r, TxType.task_reward, t.title⟩])
      s.next_assignment_id
    exact h'.trans hadm
  have f0 : (applyCompletion s aid a.child_id now r t.title).assignments.find?
      (fun x => x.assignment_id == aid) = some (markC a) := by
    have h' := find?_updateAssignment s.assignments aid markC (fun x => rfl)
    rw [hfid] at h'
    simp only [Option.map_some'] at h'
    rw [if_pos hidb] at h'
    exact h'
  have f1 : (applyCompletion s aid a.child_id now r t.title).assignments.find?
      (fun x => x.assignment_id == aid && x.is_completed) = some (markC a) := by
    have h' := find?_completed_split hnd1 f0
    rw [if_pos rfl] at h'
    exact h'
  have hfu1 : (applyCompletion s aid a.child_id now r t.title).users.find?
      (fun x => x.user_id == (markC a).child_id) =
      some (if u.user_id == a.child_id then { u with balance := u.balance + r }
            else u) := by
    have h' := find?_bumpBalance s.users a.child_id a.child_id r
    rw [hfu] at h'
    simp only [Option.map_some'] at h'
    exact h'
  have heval := handle_return_eval (applyCompletion s aid a.child_id now r t.title)
    adminId aid (markC a) t
    (if u.user_id == a.child_id then { u with balance := u.balance + r } else u)
    r hadm1 f1 hft hown hfu1 rfl hr
  refine ⟨_, heval, ?_, ?_, ?_, ?_, ?_⟩
  · have h' := find?_updateAssignment
      (applyCompletion s aid a.child_id now r t.title).assignments aid
      (fun x => { x with is_completed := false, completed_at := none,
                         reward_received := none }) (fun x => rfl)
    rw [f0] at h'
    simp only [Option.map_some'] at h'
    rw [if_pos hidb] at h'
    exact h'
  · show ((applyCompletion s aid a.child_id now r t.title).assignments.map
        (fun x => if x.assignment_id == aid then
          { x with is_completed := false, completed_at := none,
                   reward_received := none } else x)).map Assignment.assigned_date
      = s.assignments.map Assignment.assigned_date
    simp only [applyCompletion, updateAssignment, List.map_map]
    apply List.map_congr_left
    intro x _
    by_cases h : x.assignment_id == aid <;> simp [h, Function.comp]
  · have b1 := balanceOf_bump s (bumpBalance s.users a.child_id r) a.child_id r
      (updateAssignment s.assignments aid markC)
      (s.transactions ++ [⟨a.child_id, r, TxType.task_reward, t.title⟩])
      s.next_assignment_id rfl
    have b2 := balanceOf_bump (applyCompletion s aid a.child_id now r t.title)
      (bumpBalance (applyCompletion s aid a.child_id now r t.title).users
        (markC a).child_id (-r)) (markC a).child_id (-r)
      (updateAssignment (applyCompletion s aid a.child_id now r t.title).assignments
        aid (fun x => { x with is_completed := false, completed_at := none,
                               reward_received := none }))
      ((applyCompletion s aid a.child_id now r t.title).transactions ++
        [⟨(markC a).child_id, -r, TxType.task_return, t.title⟩])
      (applyCompletion s aid a.child_id now r t.title).next_assignment_id rfl
    rw [b2, show (markC a).child_id = a.child_id from rfl,
      show balanceOf (applyCompletion s aid a.child_id now r t.title) a.child_id =
        Option.map (fun b => b + r) (balanceOf s a.child_id) from b1]
    simp only [balanceOf, hfu, Option.map_some']
    simp [add_neg_cancel_right]
  · show (s.transactions ++ [⟨a.child_id, r, TxType.task_reward, t.title⟩]) ++
        [⟨(markC a).child_id, -r, TxType.task_return, t.title⟩] =
      s.transactions ++ _
    rw [List.append_assoc]
    rfl
  · show ledgerSum ((s.transactions ++
        [⟨a.child_id, r, TxType.task_reward, t.title⟩]) ++
        [⟨(markC a).child_id, -r, TxType.task_return, t.title⟩]) a.child_id =
      ledgerSum s.transactions a.child_id
    rw [ledgerSum_append_single, ledgerSum_append_single]
    simp

/-- The round-trip state for the witness: complete the daily assignment on
time, then let the owning admin return it. -/
def exStateDailyRoundTrip : State := afterReturn exStateDailyDone 1 1

/-- Witness for C4: the on-time completion of the daily assignment followed by
the admin's return restores the assignment and the balance. -/
theorem c4_complete_return_round_trip_witness :
    UniqueAssignmentIds exStateDaily ∧
    handle_complete_task exStateDaily 20 1 exNowOnTime =
      .completed exStateDailyDone 10 ∧
    (∃ s2, handle_return_task exStateDailyDone 1 1 = .returned s2 20 10 ∧
      s2.assignments.find? (fun x => x.assignment_id == 1) =
        some { exDailyAsg with is_completed := false, completed_at := none,
                               reward_received := none } ∧
      s2.assignments.map Assignment.assigned_date =
        exStateDaily.assignments.map Assignment.assigned_date ∧
      balanceOf s2 20 = balanceOf exStateDaily 20 ∧
      s2.transactions = exStateDaily.transactions ++
        [⟨20, 10, TxType.task_reward, exDaily.title⟩,
         ⟨20, -10, TxType.task_return, exDaily.title⟩] ∧
      ledgerSum s2.transactions 20 = ledgerSum exStateDaily.transactions 20) :=
  ⟨by decide, by decide,
    c4_complete_return_round_trip exStateDaily 20 1 1 exNowOnTime exDailyAsg
      exDaily exStateDailyDone 10 (by decide) (by decide) (by decide)
      (by decide) (by decide) (by decide)⟩

/-! ### C10: manual deductions cannot overdraw -/

/-- C10: a manual deduction larger than the child's current balance fails
with the store unchanged, and manual balance operations with the wizard's
positive amounts keep every balance non-negative. -/
theorem c10_remove_balance_guard (s : State) (cid : Nat) (amount b : Int)
    (descr : String) :
    (balanceOf s cid = some b → b < amount →
      remove_balance s cid amount descr = none ∧
      afterRemove s cid amount descr = s) ∧
    (remove_balance s cid amount descr = none →
      afterRemove s cid amount descr = s) ∧
    (UniqueUserIds s → (∀ u ∈ s.users, 0 ≤ u.balance) →
      ∀ u ∈ (afterRemove s cid amount descr).users, 0 ≤ u.balance) ∧
    (0 < amount → (∀ u ∈ s.users, 0 ≤ u.balance) →
      ∀ u ∈ (add_balance s cid amount descr).users, 0 ≤ u.balance) := by
  refine ⟨?_, ?_, ?_, ?_⟩
  · intro hb hlt
    unfold remove_balance afterRemove remove_balance
    simp only [hb]
    rw [if_pos hlt]
    exact ⟨rfl, rfl⟩
  · intro hnone
    unfold afterRemove
    rw [hnone]
    rfl
  · intro hnd hpos u' hu'
    unfold afterRemove remove_balance at hu'
    rcases hb : balanceOf s cid with _ | b0 <;> simp only [hb] at hu'
    · exact hpos u' hu'
    · by_cases hlt : b0 < amount
      · rw [if_pos hlt] at hu'
        exact hpos u' hu'
      · rw [if_neg hlt] at hu'
        simp only [Option.getD_some] at hu'
        rcases bumpBalance_mem hu' with ⟨u0, hu0, rfl⟩
        by_cases hc : u0.user_id == cid
        · have hcn : u0.user_id = cid := by simpa using hc
          unfold balanceOf at hb
          rcases hf : s.users.find? (fun x => x.user_id == cid) with _ | uf <;>
            rw [hf] at hb
          · exact absurd hb (by simp)
          · simp only [Option.map_some', Option.some.injEq] at hb
            have hufid : uf.user_id = cid := by
              simpa using List.find?_some hf
            have hu0uf : u0 = uf :=
              List.inj_on_of_nodup_map hnd hu0
                (List.mem_of_find?_eq_some hf) (by rw [hcn, hufid])
            simp only [hc, if_true]
            have : u0.balance = b0 := by rw [hu0uf, hb]
            simp only [this]
            omega
        · simp only [hc]
          exact hpos u0 hu0
  · intro hpos hnn u' hu'
    rcases bumpBalance_mem hu' with ⟨u0, hu0, rfl⟩
    by_cases hc : u0.user_id == cid
    · simp only [hc, if_true]
      have := hnn u0 hu0
      omega
    · simp only [hc]
      exact hnn u0 hu0

/-- A store with child 20 holding balance 5 from one manual addition. -/
def exStateBal : State :=
  ⟨[], [exAdmin, { exChild with balance := 5 }], [],
   [⟨20, 5, TxType.manual_add, "x"⟩], 1⟩

/-- Witness for C10: removing 7 points from a balance of 5 fails and leaves
the store unchanged, and balances stay non-negative. -/
theorem c10_remove_balance_guard_witness :
    balanceOf exStateBal 20 = some 5 ∧ (5 : Int) < 7 ∧
    (remove_balance exStateBal 20 7 "y" = none ∧
      afterRemove exStateBal 20 7 "y" = exStateBal) ∧
    (∀ u ∈ (afterRemove exStateBal 20 7 "y").users, 0 ≤ u.balance) := by
  have h := c10_remove_balance_guard exStateBal 20 7 5 "y"
  exact ⟨by decide, by decide, h.1 (by decide) (by decide),
    h.2.2.1 (by decide) (by decide)⟩

/-! ### C8: deleting a task voids only its open assignments -/

/-- C8: deleting a task definition voids exactly its non-completed
assignments; every completed assignment and every ledger entry survives
unchanged, and the reported set is exactly the children holding a
non-completed assignment of the deleted task. -/
theorem c8_delete_task_preserves_history (s : State) (adminId tid : Nat)
    (s' : State) (affected : List Nat)
    (h : delete_task s adminId tid = some (s', affected)) :
    (∀ a ∈ s'.assignments, a.task_id = tid → a.is_completed = true) ∧
    (∀ a ∈ s.assignments, a.is_completed = true → a ∈ s'.assignments) ∧
    (∀ a ∈ s'.assignments, a ∈ s.assignments) ∧
    s'.transactions = s.transactions ∧
    s'.users = s.users ∧
    (∀ t ∈ s'.tasks, t.task_id ≠ tid) ∧
    (∀ c, c ∈ affected ↔ ∃ a ∈ s.assignments, a.task_id = tid ∧
      a.is_completed = false ∧ a.child_id = c) := by
  unfold delete_task at h
  by_cases hA : is_admin s adminId = true
  · rw [if_neg (by simp [hA])] at h
    rcases hft : s.tasks.find? (fun t => t.task_id == tid && t.created_by == adminId)
      with _ | t0 <;> simp only [hft] at h
    · exact absurd h (by simp)
    · simp only [Option.some.injEq, Prod.mk.injEq] at h
      obtain ⟨hs', haff⟩ := h
      subst hs'; subst haff
      refine ⟨?_, ?_, ?_, rfl, rfl, ?_, ?_⟩
      · intro a ha htid
        have := (List.mem_filter.1 ha).2
        simp only [htid, Bool.not_eq_eq_eq_not, Bool.not_true, Bool.and_eq_true,
          beq_self_eq_true, true_and, Bool.not_eq_true', Bool.not_eq_false] at this
        simpa using this
      · intro a ha hc
        apply List.mem_filter.2
        refine ⟨ha, ?_⟩
        simp [cascade_assignments, hc]
      · intro a ha
        exact (List.mem_filter.1 ha).1
      · intro t ht
        have := (List.mem_filter.1 ht).2
        simpa using this
      · intro c
        rw [List.mem_dedup, List.mem_map]
        constructor
        · rintro ⟨a, ha, rfl⟩
          have hm := List.mem_filter.1 ha
          have hp := hm.2
          simp only [Bool.and_eq_true, beq_iff_eq, Bool.not_eq_true'] at hp
          exact ⟨a, hm.1, hp.1, hp.2, rfl⟩
        · rintro ⟨a, ha, htid, hnc, rfl⟩
          exact ⟨a, List.mem_filter.2 ⟨ha, by simp [htid, hnc]⟩, rfl⟩
  · rw [if_pos (by simp [Bool.eq_false_iff.2 (fun hc => hA hc)])] at h
    exact absurd h (by simp)

/-- A store where admin 1 owns the daily task, child 20 has one open and one
completed assignment of it, plus a ledger entry from the completed one. -/
def exStateDel : State :=
  ⟨[exDaily], [exAdmin, { exChild with balance := 10 }],
   [⟨1, 100, 20, 8, combine 8 64800000000, true, some (combine 8 61200000000),
     some 10⟩,
    ⟨2, 100, 20, 9, combine 9 64800000000, false, none, none⟩],
   [⟨20, 10, TxType.task_reward, "dishes"⟩], 3⟩

/-- Witness for C8: deleting the daily task keeps the completed day-8
assignment and the ledger, voids the open day-9 one, and reports child 20. -/
theorem c8_delete_task_preserves_history_witness :
    (delete_task exStateDel 1 100).isSome = true ∧
    (∀ st aff, delete_task exStateDel 1 100 = some (st, aff) →
      st.transactions = exStateDel.transactions ∧ aff = [20]) := by
  refine ⟨by decide, ?_⟩
  intro st aff h
  have hc := c8_delete_task_preserves_history exStateDel 1 100 st aff h
  have h0 : delete_task exStateDel 1 100 =
      some (⟨[], exStateDel.users, [⟨1, 100, 20, 8, combine 8 64800000000,
        true, some (combine 8 61200000000), some 10⟩],
        exStateDel.transactions, 3⟩, [20]) := by decide
  rw [h0] at h
  simp only [Option.some.injEq, Prod.mk.injEq] at h
  exact ⟨by rw [← h.1], h.2.symm ▸ rfl⟩

/-! ### C6: which assignments are excluded from completion -/

/-- C6 counterexample: a weekly assignment whose calendar day has passed
(here assigned on day 7, attempted on day 9) carries no complete action in
the child's list, yet `handle_complete_task` does NOT fail — it succeeds and
pays the half reward — contradicting the claim that such assignments are
excluded from the complete operation. -/
theorem c6_exclusion_counterexample :
    exWeekly.task_type = TaskType.weekly ∧
    endOfDay exWeeklyAsg.assigned_date < exNowLate ∧
    findEligible exStateWeekly 1 20 = some (exWeeklyAsg, exWeekly) ∧
    handle_tasks exStateWeekly 20 exNowLate = [] ∧
    handle_complete_task exStateWeekly 20 1 exNowLate =
      .completed exStateWeeklyDone 25 := by
  decide

/-- C6 amended: the exclusion applies to the complete operation only for
daily assignments — a daily assignment not assigned today, or one whose day
has ended, is rejected with the store unchanged and the Reward Policy never
invoked — while for both daily and weekly assignments the claimed conditions
do remove the complete action from the child's task list (a weekly
assignment past its own day stays completable at half reward, as the
counterexample shows). -/
theorem c6_exclusion_amended (s : State) (uid aid : Nat) (now : Nat) :
    (∀ a t, findEligible s aid uid = some (a, t) →
      t.task_type = TaskType.daily →
      (a.assigned_date ≠ dayOf now ∨ endOfDay a.assigned_date < now) →
      (handle_complete_task s uid aid now = .inactive ∨
       handle_complete_task s uid aid now = .expired) ∧
      afterComplete s uid aid now = s) ∧
    (UniqueAssignmentIds s →
      ∀ a ∈ s.assignments, ∀ t, a.child_id = uid → a.is_completed = false →
      s.tasks.find? (fun x => x.task_id == a.task_id) = some t →
      a.due_date ≤ endOfDay a.assigned_date →
      ((t.task_type = TaskType.daily ∧ a.assigned_date ≠ dayOf now ∧
          a.due_date < now) ∨
       ((t.task_type = TaskType.daily ∨ t.task_type = TaskType.weekly) ∧
          endOfDay a.assigned_date < now)) →
      a.assignment_id ∉ handle_tasks s uid now) := by
  constructor
  · intro a t hE ht hcond
    have hres : handle_complete_task s uid aid now = .inactive ∨
        handle_complete_task s uid aid now = .expired := by
      unfold handle_complete_task
      rw [hE]
      by_cases h1 : a.assigned_date = dayOf now
      · rcases hcond with hne | heod
        · exact absurd h1 hne
        · rw [h1] at heod
          simp only [ht]
          rw [if_neg (by simp [h1]), if_pos (by simp [heod])]
          exact Or.inr rfl
      · simp only [ht]
        rw [if_pos (by simp [h1])]
        exact Or.inl rfl
    refine ⟨hres, ?_⟩
    unfold afterComplete
    rcases hres with h | h <;> rw [h]
  · intro hnd a ha t hchild hnc hft hdue hcond hmem
    unfold handle_tasks at hmem
    rcases List.mem_filterMap.1 hmem with ⟨a2, ha2, hval⟩
    by_cases hg : (a2.child_id == uid && !a2.is_completed) = true
    · rw [if_pos hg] at hval
      rcases hft2 : s.tasks.find? (fun x => x.task_id == a2.task_id)
        with _ | t2 <;> simp only [hft2] at hval
      · exact absurd hval (by simp)
      · by_cases hbtn : taskButton now t2 a2 = true
        · rw [if_pos hbtn] at hval
          simp only [Option.some.injEq] at hval
          have ha2a : a2 = a :=
            List.inj_on_of_nodup_map hnd ha2 ha hval
          subst ha2a
          rw [hft] at hft2
          simp only [Option.some.injEq] at hft2
          subst hft2
          -- now derive a contradiction from the button logic
          rcases hcond with ⟨htd, hne, hlt⟩ | ⟨htdw, heod⟩
          · simp only [taskButton, htd] at hbtn
            rw [if_pos (by simp [hne])] at hbtn
            exact absurd hbtn (by simp)
          · have hnlt : ¬ now < a2.due_date := by omega
            rcases htdw with htd | htw
            · simp only [taskButton, htd] at hbtn
              by_cases h1 : a2.assigned_date = dayOf now
              · rw [if_neg (by simp [h1]), if_neg hnlt,
                  if_pos (by simp [h1])] at hbtn
                simp only [decide_eq_true_eq] at hbtn
                rw [← h1] at hbtn
                omega
              · rw [if_pos (by simp [h1])] at hbtn
                exact absurd hbtn (by simp)
            · simp only [taskButton, htw] at hbtn
              rw [if_neg (by simp), if_neg hnlt] at hbtn
              by_cases h1 : a2.assigned_date = dayOf now
              · rw [if_pos (by simp [h1])] at hbtn
                simp only [decide_eq_true_eq] at hbtn
                rw [← h1] at hbtn
                omega
              · rw [if_neg (by simp [h1])] at hbtn
                exact absurd hbtn (by simp)
        · rw [if_neg hbtn] at hval
          exact absurd hval (by simp)
    · rw [if_neg hg] at hval
      exact absurd hval (by simp)

/-- A daily assignment of the example task assigned on day 8. -/
def exDailyAsgOld : Assignment :=
  ⟨2, 100, 20, 8, combine 8 64800000000, false, none, none⟩

/-- A store holding yesterday's daily assignment, seen on day 9. -/
def exStateDailyOld : State :=
  ⟨[exDaily], [exAdmin, exChild], [exDailyAsgOld], [], 3⟩

/-- Witness for the amended C6: yesterday's daily assignment is rejected by
the complete operation with the store unchanged, and carries no complete
action in the list. -/
theorem c6_exclusion_amended_witness :
    ((handle_complete_task exStateDailyOld 20 2 exNowLate = .inactive ∨
      handle_complete_task exStateDailyOld 20 2 exNowLate = .expired) ∧
     afterComplete exStateDailyOld 20 2 exNowLate = exStateDailyOld) ∧
    (2 : Nat) ∉ handle_tasks exStateDailyOld 20 exNowLate := by
  have h := c6_exclusion_amended exStateDailyOld 20 2 exNowLate
  exact ⟨h.1 exDailyAsgOld exDaily (by decide) (by decide)
      (Or.inl (by decide)),
    h.2 (by decide) exDailyAsgOld (by decide) exDaily (by decide) (by decide)
      (by decide) (by decide) (Or.inl (by decide))⟩

/-! ### Scheduler sweep machinery -/

/-- List-level form of the daily duplicate check. -/
def hasOnL (l : List Assignment) (tid cid day : Nat) : Bool :=
  l.any (fun a => a.task_id == tid && a.child_id == cid && a.assigned_date == day)

/-- Number of assignments of a (task, child) pair dated on a given day. -/
def countOn (s : State) (tid cid day : Nat) : Nat :=
  s.assignments.countP (fun a =>
    a.task_id == tid && a.child_id == cid && a.assigned_date == day)

theorem hasAssignmentOn_eq (s : State) (tid cid day : Nat) :
    hasAssignmentOn s tid cid day = hasOnL s.assignments tid cid day := rfl

theorem hasOnL_append (l1 l2 : List Assignment) (tid cid day : Nat) :
    hasOnL (l1 ++ l2) tid cid day =
      (hasOnL l1 tid cid day || hasOnL l2 tid cid day) := by
  simp [hasOnL, List.any_append]

theorem hasOnL_pos_iff (l : List Assignment) (tid cid day : Nat) :
    hasOnL l tid cid day = true ↔
      0 < l.countP (fun a =>
        a.task_id == tid && a.child_id == cid && a.assigned_date == day) := by
  rw [hasOnL, List.any_eq_true, List.countP_pos_iff]

/-- Characterization of the daily sweep's inner loop over one child's tasks:
the store gains exactly the missing (task, child, today) rows, the returned
count is the number of tasks that were missing, and afterwards every task of
the list has a row for this child today. -/
theorem stepTaskDaily_fold (c today : Nat) (ts : List Task) :
    ∀ (s : State) (k : Nat), (ts.map Task.task_id).Nodup →
    ∃ s' E,
      ts.foldl (stepTaskDaily c today) (s, k) =
        (s', k + ts.countP (fun t => !hasAssignmentOn s t.task_id c today)) ∧
      s'.tasks = s.tasks ∧ s'.users = s.users ∧
      s'.transactions = s.transactions ∧
      s'.assignments = s.assignments ++ E ∧
      (∀ a ∈ E, a.child_id = c ∧ a.assigned_date = today) ∧
      (∀ tid cid,
        E.countP (fun a => a.task_id == tid && a.child_id == cid &&
          a.assigned_date == today) =
        if tid ∈ ts.map Task.task_id ∧ cid = c ∧
           hasAssignmentOn s tid c today = false then 1 else 0) ∧
      (∀ t ∈ ts, hasAssignmentOn s' t.task_id c today = true) := by
  induction ts with
  | nil =>
    intro s k _
    refine ⟨s, [], by simp, rfl, rfl, rfl, by simp, by simp, ?_, by simp⟩
    intro tid cid
    simp
  | cons t ts' ih =>
    intro s k hnd
    simp only [List.map_cons, List.nodup_cons] at hnd
    by_cases hb : hasAssignmentOn s t.task_id c today = true
    · have hstep : stepTaskDaily c today (s, k) t = (s, k) := by
        unfold stepTaskDaily
        rw [if_pos hb]
      obtain ⟨s', E, hfold, ht1, ht2, ht3, hA, hE, hcnt, hall⟩ := ih s k hnd.2
      refine ⟨s', E, ?_, ht1, ht2, ht3, hA, hE, ?_, ?_⟩
      · rw [List.foldl_cons, hstep, hfold]
        have : (t :: ts').countP
            (fun t => !hasAssignmentOn s t.task_id c today) =
            ts'.countP (fun t => !hasAssignmentOn s t.task_id c today) := by
          rw [List.countP_cons]
          simp [hb]
        rw [this]
      · intro tid cid
        rw [hcnt tid cid]
        by_cases ht' : tid = t.task_id
        · subst ht'
          simp [hb]
        · simp [List.mem_cons, ht']
      · intro t2 ht2m
        rcases List.mem_cons.1 ht2m with rfl | hmem
        · rw [hasAssignmentOn_eq, hA, hasOnL_append,
            ← hasAssignmentOn_eq s, hb]
          rfl
        · exact hall t2 hmem
    · have hstep : stepTaskDaily c today (s, k) t =
          (insertAssignment s t c today, k + 1) := by
        unfold stepTaskDaily
        rw [if_neg (by simp [hb])]
      obtain ⟨s', E', hfold, ht1, ht2, ht3, hA, hE, hcnt, hall⟩ :=
        ih (insertAssignment s t c today) (k + 1) hnd.2
      have hrow : (insertAssignment s t c today).assignments =
          s.assignments ++ [⟨s.next_assignment_id, t.task_id, c, today,
            combine today t.due_time, false, none, none⟩] := rfl
      have hhas1 : ∀ tid cid,
          hasAssignmentOn (insertAssignment s t c today) tid cid today =
          (hasAssignmentOn s tid cid today ||
            (t.task_id == tid && c == cid)) := by
        intro tid cid
        rw [hasAssignmentOn_eq, hrow, hasOnL_append, ← hasAssignmentOn_eq s]
        simp [hasOnL]
      refine ⟨s', ⟨s.next_assignment_id, t.task_id, c, today,
        combine today t.due_time, false, none, none⟩ :: E', ?_, ht1, ht2, ht3,
        ?_, ?_, ?_, ?_⟩
      · rw [List.foldl_cons, hstep, hfold]
        have hcong : ts'.countP (fun t2 =>
            !hasAssignmentOn (insertAssignment s t c today) t2.task_id c today)
            = ts'.countP (fun t2 => !hasAssignmentOn s t2.task_id c today) := by
          apply List.countP_congr
          intro t2 ht2m
          rw [hhas1 t2.task_id c]
          have : (t.task_id == t2.task_id) = false := by
            simp only [beq_eq_false_iff_ne, ne_eq]
            intro hcontra
            exact hnd.1 (hcontra ▸ List.mem_map_of_mem Task.task_id ht2m)
          simp [this]
        rw [hcong, List.countP_cons]
        have hbt : (!hasAssignmentOn s t.task_id c today) = true := by simp [hb]
        rw [hbt, if_pos rfl]
        simp only [Prod.mk.injEq, true_and, eq_self_iff_true]
        omega
      · rw [hA, hrow, List.append_assoc]
        rfl
      · intro a ha
        rcases List.mem_cons.1 ha with rfl | hmem
        · exact ⟨rfl, rfl⟩
        · exact hE a hmem
      · intro tid cid
        rw [List.countP_cons, hcnt tid cid, hhas1 tid c]
        by_cases ht' : tid = t.task_id
        · subst ht'
          by_cases hcid : cid = c
          · simp [hcid, hb]
          · have hne : (c == cid) = false := by
              simp only [beq_eq_false_iff_ne, ne_eq]
              omega
            simp [hne, hcid]
        · have hne : (t.task_id == tid) = false := by
            simp only [beq_eq_false_iff_ne, ne_eq]
            omega
          simp [hne, List.mem_cons, ht']
      · intro t2 ht2m
        rcases List.mem_cons.1 ht2m with rfl | hmem
        · rw [hasAssignmentOn_eq, hA, hasOnL_append]
          have : hasAssignmentOn (insertAssignment s t2 c today)
              t2.task_id c today = true := by
            rw [hhas1 t2.task_id c]
            simp
          rw [hasAssignmentOn_eq] at this
          rw [this]
          rfl
        · exact hall t2 hmem

theorem any_ext {α : Type} (l : List α) (p q : α → Bool)
    (h : ∀ x ∈ l, p x = q x) : l.any p = l.any q := by
  induction l with
  | nil => rfl
  | cons x xs ih =>
    simp only [List.any_cons, h x (List.mem_cons_self x xs)]
    rw [ih (fun y hy => h y (List.mem_cons_of_mem x hy))]

/-- Characterization of the daily sweep's outer loop over children: tasks,
users and the ledger are untouched, the new rows are exactly the missing
(task, child, today) pairs — one each — and the emitted notifications are
one per child with at least one missing task, each listing the admin's whole
daily task list. -/
theorem stepChildDaily_fold (ts : List Task) (today : Nat)
    (hts : (ts.map Task.task_id).Nodup) :
    ∀ (cs : List User) (s : State) (k : Nat) (ns : List Notif),
      (cs.map User.user_id).Nodup →
    ∃ s' E k',
      cs.foldl (stepChildDaily ts today) (s, k, ns) =
        (s', k', ns ++ cs.filterMap (fun c =>
          if ts.any (fun t => !hasAssignmentOn s t.task_id c.user_id today)
          then some ⟨c.user_id, ts.map Task.task_id⟩ else none)) ∧
      s'.tasks = s.tasks ∧ s'.users = s.users ∧
      s'.transactions = s.transactions ∧
      s'.assignments = s.assignments ++ E ∧
      (∀ a ∈ E, a.child_id ∈ cs.map User.user_id ∧ a.assigned_date = today) ∧
      (∀ tid cid,
        E.countP (fun a => a.task_id == tid && a.child_id == cid &&
          a.assigned_date == today) =
        if tid ∈ ts.map Task.task_id ∧ cid ∈ cs.map User.user_id ∧
           hasAssignmentOn s tid cid today = false then 1 else 0) ∧
      (∀ t ∈ ts, ∀ c ∈ cs, hasAssignmentOn s' t.task_id c.user_id today = true) := by
  intro cs
  induction cs with
  | nil =>
    intro s k ns _
    refine ⟨s, [], k, by simp, rfl, rfl, rfl, by simp, by simp, ?_, by simp⟩
    intro tid cid
    simp
  | cons c cs' ih =>
    intro s k ns hnd
    simp only [List.map_cons, List.nodup_cons] at hnd
    obtain ⟨s1, E1, hfold1, hu1, hu2, hu3, hA1, hE1, hcnt1, hall1⟩ :=
      stepTaskDaily_fold c.user_id today ts s 0 hts
    set kc := ts.countP (fun t => !hasAssignmentOn s t.task_id c.user_id today)
      with hkc
    set ns1 := if 0 < kc then ns ++ [⟨c.user_id, ts.map Task.task_id⟩] else ns
      with hns1
    have hstep : stepChildDaily ts today (s, k, ns) c = (s1, k + kc, ns1) := by
      unfold stepChildDaily
      simp only [hfold1, Nat.zero_add]
    have hiff : 0 < kc ↔
        ts.any (fun t => !hasAssignmentOn s t.task_id c.user_id today) = true := by
      rw [hkc, List.countP_pos_iff, List.any_eq_true]
    have hE1L : ∀ tid cid, cid ≠ c.user_id → hasOnL E1 tid cid today = false := by
      intro tid cid hne
      simp only [hasOnL, List.any_eq_false]
      intro a ha
      have := (hE1 a ha).1
      simp [this, hne, Ne.symm hne]
    have hhas_eq : ∀ tid cid, cid ≠ c.user_id →
        hasAssignmentOn s1 tid cid today = hasAssignmentOn s tid cid today := by
      intro tid cid hne
      rw [hasAssignmentOn_eq, hA1, hasOnL_append, ← hasAssignmentOn_eq s,
        hE1L tid cid hne, Bool.or_false]
    obtain ⟨s', E', k', hfold', hv1, hv2, hv3, hA', hE', hcnt', hall'⟩ :=
      ih s1 (k + kc) ns1 hnd.2
    have hchild_ne : ∀ c' ∈ cs', c'.user_id ≠ c.user_id := by
      intro c' hc' hcontra
      exact hnd.1 (hcontra ▸ List.mem_map_of_mem User.user_id hc')
    refine ⟨s', E1 ++ E', k', ?_, hv1.trans hu1, hv2.trans hu2, hv3.trans hu3,
      ?_, ?_, ?_, ?_⟩
    · rw [List.foldl_cons, hstep, hfold']
      have hfm : cs'.filterMap (fun c' =>
          if ts.any (fun t => !hasAssignmentOn s1 t.task_id c'.user_id today)
          then some (Notif.mk c'.user_id (ts.map Task.task_id)) else none) =
          cs'.filterMap (fun c' =>
          if ts.any (fun t => !hasAssignmentOn s t.task_id c'.user_id today)
          then some (Notif.mk c'.user_id (ts.map Task.task_id)) else none) := by
        apply List.filterMap_congr
        intro c' hc'
        have hae : ts.any (fun t =>
            !hasAssignmentOn s1 t.task_id c'.user_id today) =
            ts.any (fun t => !hasAssignmentOn s t.task_id c'.user_id today) := by
          apply any_ext
          intro t _
          rw [hhas_eq t.task_id c'.user_id (hchild_ne c' hc')]
        rw [hae]
      rw [hfm]
      by_cases hany : ts.any (fun t =>
          !hasAssignmentOn s t.task_id c.user_id today) = true
      · have hpos : 0 < kc := hiff.2 hany
        rw [hns1, if_pos hpos]
        simp only [List.filterMap_cons, hany, if_pos]
        rw [List.append_assoc]
        rfl
      · have hzero : ¬ 0 < kc := fun hp => hany (hiff.1 hp)
        rw [hns1, if_neg hzero]
        simp only [List.filterMap_cons,
          Bool.eq_false_iff.2 (fun hc2 => hany hc2)]
        simp
    · rw [hA', hA1, List.append_assoc]
    · intro a ha
      rcases List.mem_append.1 ha with hm | hm
      · exact ⟨by simp [(hE1 a hm).1], (hE1 a hm).2⟩
      · refine ⟨?_, (hE' a hm).2⟩
        simp only [List.map_cons, List.mem_cons]
        exact Or.inr (hE' a hm).1
    · intro tid cid
      rw [List.countP_append, hcnt1 tid cid, hcnt' tid cid]
      by_cases hcid : cid = c.user_id
      · have hnotin : c.user_id ∉ cs'.map User.user_id := hnd.1
        simp [hcid, hnotin, List.mem_cons]
      · have hmem_iff : (cid ∈ (c :: cs').map User.user_id) ↔
            cid ∈ cs'.map User.user_id := by
          simp [List.mem_cons, hcid]
        by_cases hmm : cid ∈ cs'.map User.user_id
        · rw [hhas_eq tid cid hcid]
          simp [hcid, hmem_iff, hmm]
        · simp [hcid, hmem_iff, hmm]
    · intro t ht c2 hc2
      rcases List.mem_cons.1 hc2 with rfl | hm
      · rw [hasAssignmentOn_eq, hA', hasOnL_append, ← hasAssignmentOn_eq s1,
          hall1 t ht]
        rfl
      · exact hall' t ht c2 hm

/-- A daily inner loop over tasks that all already have today's row is the
identity. -/
theorem stepTaskDaily_fold_id (c today : Nat) (ts : List Task) :
    ∀ (s : State) (k : Nat),
      (∀ t ∈ ts, hasAssignmentOn s t.task_id c today = true) →
      ts.foldl (stepTaskDaily c today) (s, k) = (s, k) := by
  induction ts with
  | nil => intro s k _; rfl
  | cons t ts' ih =>
    intro s k hall
    rw [List.foldl_cons]
    have hstep : stepTaskDaily c today (s, k) t = (s, k) := by
      unfold stepTaskDaily
      rw [if_pos (hall t (List.mem_cons_self t ts'))]
    rw [hstep]
    exact ih s k (fun t2 h2 => hall t2 (List.mem_cons_of_mem t h2))

/-- A daily outer loop in which every (task, child) pair already has today's
row changes nothing, creates zero assignments and sends no notification. -/
theorem stepChildDaily_fold_id (ts : List Task) (today : Nat) :
    ∀ (cs : List User) (s : State) (k : Nat) (ns : List Notif),
      (∀ t ∈ ts, ∀ c ∈ cs, hasAssignmentOn s t.task_id c.user_id today = true) →
      cs.foldl (stepChildDaily ts today) (s, k, ns) = (s, k, ns) := by
  intro cs
  induction cs with
  | nil => intro s k ns _; rfl
  | cons c cs' ih =>
    intro s k ns hall
    rw [List.foldl_cons]
    have hinner := stepTaskDaily_fold_id c.user_id today ts s 0
      (fun t ht => hall t ht c (List.mem_cons_self c cs'))
    have hstep : stepChildDaily ts today (s, k, ns) c = (s, k, ns) := by
      unfold stepChildDaily
      simp only [hinner]
      simp
    rw [hstep]
    exact ih s k ns (fun t ht c2 h2 => hall t ht c2 (List.mem_cons_of_mem c h2))

/-- Filtering a table keeps its key column duplicate-free. -/
theorem nodup_map_filter {α : Type} (f : α → Nat) (p : α → Bool) (l : List α)
    (h : (l.map f).Nodup) : ((l.filter p).map f).Nodup :=
  List.Nodup.sublist (List.Sublist.map f (List.filter_sublist l)) h

/-! ### Weekly sweep machinery -/

theorem weekStart_le_self (d : Nat) : weekStart d ≤ d := by
  unfold weekStart
  omega

theorem lt_weekStart_add (d : Nat) : d < weekStart d + 7 := by
  unfold weekStart
  omega

/-- List-level form of the weekly duplicate check. -/
def hasWeekL (l : List Assignment) (tid cid day : Nat) : Bool :=
  l.any (fun a => a.task_id == tid && a.child_id == cid &&
    decide (weekStart day ≤ a.assigned_date) &&
    decide (a.assigned_date < weekStart day + 7))

/-- Number of assignments of a (task, child) pair dated in the ISO week of
`day`. -/
def countInWeek (s : State) (tid cid day : Nat) : Nat :=
  s.assignments.countP (fun a => a.task_id == tid && a.child_id == cid &&
    decide (weekStart day ≤ a.assigned_date) &&
    decide (a.assigned_date < weekStart day + 7))

theorem hasAssignmentInWeek_eq (s : State) (tid cid day : Nat) :
    hasAssignmentInWeek s tid cid day = hasWeekL s.assignments tid cid day := rfl

theorem hasWeekL_append (l1 l2 : List Assignment) (tid cid day : Nat) :
    hasWeekL (l1 ++ l2) tid cid day =
      (hasWeekL l1 tid cid day || hasWeekL l2 tid cid day) := by
  simp [hasWeekL, List.any_append]

theorem hasWeekL_pos_iff (l : List Assignment) (tid cid day : Nat) :
    hasWeekL l tid cid day = true ↔
      0 < l.countP (fun a => a.task_id == tid && a.child_id == cid &&
        decide (weekStart day ≤ a.assigned_date) &&
        decide (a.assigned_date < weekStart day + 7)) := by
  rw [hasWeekL, List.any_eq_true, List.countP_pos_iff]

/-- Characterization of the weekly sweep's inner loop over one child's
tasks: the store gains exactly the rows for tasks with no assignment in the
current week, and the accumulated list is exactly those tasks. -/
theorem stepTaskWeekly_fold (c today : Nat) (ts : List Task) :
    ∀ (s : State) (k : Nat) (l0 : List Task), (ts.map Task.task_id).Nodup →
    ∃ s' E,
      ts.foldl (stepTaskWeekly c today) (s, k, l0) =
        (s', k + ts.countP (fun t => !hasAssignmentInWeek s t.task_id c today),
         l0 ++ ts.filter (fun t => !hasAssignmentInWeek s t.task_id c today)) ∧
      s'.tasks = s.tasks ∧ s'.users = s.users ∧
      s'.transactions = s.transactions ∧
      s'.assignments = s.assignments ++ E ∧
      (∀ a ∈ E, a.child_id = c ∧ a.assigned_date = today) ∧
      (∀ tid cid,
        E.countP (fun a => a.task_id == tid && a.child_id == cid &&
          decide (weekStart today ≤ a.assigned_date) &&
          decide (a.assigned_date < weekStart today + 7)) =
        if tid ∈ ts.map Task.task_id ∧ cid = c ∧
           hasAssignmentInWeek s tid c today = false then 1 else 0) ∧
      (∀ t ∈ ts, hasAssignmentInWeek s' t.task_id c today = true) := by
  induction ts with
  | nil =>
    intro s k l0 _
    refine ⟨s, [], by simp, rfl, rfl, rfl, by simp, by simp, ?_, by simp⟩
    intro tid cid
    simp
  | cons t ts' ih =>
    intro s k l0 hnd
    simp only [List.map_cons, List.nodup_cons] at hnd
    by_cases hb : hasAssignmentInWeek s t.task_id c today = true
    · have hstep : stepTaskWeekly c today (s, k, l0) t = (s, k, l0) := by
        unfold stepTaskWeekly
        rw [if_pos hb]
      obtain ⟨s', E, hfold, ht1, ht2, ht3, hA, hE, hcnt, hall⟩ := ih s k l0 hnd.2
      refine ⟨s', E, ?_, ht1, ht2, ht3, hA, hE, ?_, ?_⟩
      · rw [List.foldl_cons, hstep, hfold]
        have h1 : (t :: ts').countP
            (fun t => !hasAssignmentInWeek s t.task_id c today) =
            ts'.countP (fun t => !hasAssignmentInWeek s t.task_id c today) := by
          rw [List.countP_cons]
          simp [hb]
        have h2 : (t :: ts').filter
            (fun t => !hasAssignmentInWeek s t.task_id c today) =
            ts'.filter (fun t => !hasAssignmentInWeek s t.task_id c today) := by
          rw [List.filter_cons]
          simp [hb]
        rw [h1, h2]
      · intro tid cid
        rw [hcnt tid cid]
        by_cases ht' : tid = t.task_id
        · subst ht'
          simp [hb]
        · simp [List.mem_cons, ht']
      · intro t2 ht2m
        rcases List.mem_cons.1 ht2m with rfl | hmem
        · rw [hasAssignmentInWeek_eq, hA, hasWeekL_append,
            ← hasAssignmentInWeek_eq s, hb]
          rfl
        · exact hall t2 hmem
    · have hstep : stepTaskWeekly c today (s, k, l0) t =
          (insertAssignment s t c today, k + 1, l0 ++ [t]) := by
        unfold stepTaskWeekly
        rw [if_neg (by simp [hb])]
      obtain ⟨s', E', hfold, ht1, ht2, ht3, hA, hE, hcnt, hall⟩ :=
        ih (insertAssignment s t c today) (k + 1) (l0 ++ [t]) hnd.2
      have hrow : (insertAssignment s t c today).assignments =
          s.assignments ++ [⟨s.next_assignment_id, t.task_id, c, today,
            combine today t.due_time, false, none, none⟩] := rfl
      have hhas1 : ∀ tid cid,
          hasAssignmentInWeek (insertAssignment s t c today) tid cid today =
          (hasAssignmentInWeek s tid cid today ||
            (t.task_id == tid && c == cid)) := by
        intro tid cid
        rw [hasAssignmentInWeek_eq, hrow, hasWeekL_append,
          ← hasAssignmentInWeek_eq s]
        simp [hasWeekL, weekStart_le_self, lt_weekStart_add]
      have hcong : ts'.countP (fun t2 =>
          !hasAssignmentInWeek (insertAssignment s t c today) t2.task_id c today)
          = ts'.countP (fun t2 => !hasAssignmentInWeek s t2.task_id c today) := by
        apply List.countP_congr
        intro t2 ht2m
        rw [hhas1 t2.task_id c]
        have : (t.task_id == t2.task_id) = false := by
          simp only [beq_eq_false_iff_ne, ne_eq]
          intro hcontra
          exact hnd.1 (hcontra ▸ List.mem_map_of_mem Task.task_id ht2m)
        simp [this]
      have hcongf : ts'.filter (fun t2 =>
          !hasAssignmentInWeek (insertAssignment s t c today) t2.task_id c today)
          = ts'.filter (fun t2 => !hasAssignmentInWeek s t2.task_id c today) := by
        apply List.filter_congr
        intro t2 ht2m
        rw [hhas1 t2.task_id c]
        have : (t.task_id == t2.task_id) = false := by
          simp only [beq_eq_false_iff_ne, ne_eq]
          intro hcontra
          exact hnd.1 (hcontra ▸ List.mem_map_of_mem Task.task_id ht2m)
        simp [this]
      refine ⟨s', ⟨s.next_assignment_id, t.task_id, c, today,
        combine today t.due_time, false, none, none⟩ :: E', ?_, ht1, ht2, ht3,
        ?_, ?_, ?_, ?_⟩
      · rw [List.foldl_cons, hstep, hfold, hcong, hcongf, List.countP_cons,
          List.filter_cons]
        have hbt : (!hasAssignmentInWeek s t.task_id c today) = true := by
          simp [hb]
        rw [hbt, if_pos rfl, if_pos rfl]
        simp only [Prod.mk.injEq, true_and, eq_self_iff_true]
        constructor
        · omega
        · simp
      · rw [hA, hrow, List.append_assoc]
        rfl
      · intro a ha
        rcases List.mem_cons.1 ha with rfl | hmem
        · exact ⟨rfl, rfl⟩
        · exact hE a hmem
      · intro tid cid
        rw [List.countP_cons, hcnt tid cid]
        by_cases ht' : tid = t.task_id
        · subst ht'
          by_cases hcid : cid = c
          · rw [hhas1 t.task_id c]
            simp [hcid, hb, weekStart_le_self, lt_weekStart_add]
          · have hne : (c == cid) = false := by
              simp only [beq_eq_false_iff_ne, ne_eq]
              omega
            rw [hhas1 t.task_id c]
            simp [hne, hcid, hb]
        · have hne : (t.task_id == tid) = false := by
            simp only [beq_eq_false_iff_ne, ne_eq]
            omega
          rw [hhas1 tid c]
          simp [hne, List.mem_cons, ht']
      · intro t2 ht2m
        rcases List.mem_cons.1 ht2m with rfl | hmem
        · rw [hasAssignmentInWeek_eq, hA, hasWeekL_append]
          have : hasAssignmentInWeek (insertAssignment s t2 c today)
              t2.task_id c today = true := by
            rw [hhas1 t2.task_id c]
            simp
          rw [hasAssignmentInWeek_eq] at this
          rw [this]
          rfl
        · exact hall t2 hmem

/-- Characterization of the weekly sweep's outer loop over children: the new
rows are exactly the (task, child) pairs with no assignment this week, and
each notified child's message lists exactly their newly assigned tasks. -/
theorem stepChildWeekly_fold (ts : List Task) (today : Nat)
    (hts : (ts.map Task.task_id).Nodup) :
    ∀ (cs : List User) (s : State) (k : Nat) (ns : List Notif),
      (cs.map User.user_id).Nodup →
    ∃ s' E k',
      cs.foldl (stepChildWeekly ts today) (s, k, ns) =
        (s', k', ns ++ cs.filterMap (fun c =>
          if ts.any (fun t => !hasAssignmentInWeek s t.task_id c.user_id today)
          then some (Notif.mk c.user_id
            ((ts.filter (fun t =>
              !hasAssignmentInWeek s t.task_id c.user_id today)).map
              Task.task_id))
          else none)) ∧
      s'.tasks = s.tasks ∧ s'.users = s.users ∧
      s'.transactions = s.transactions ∧
      s'.assignments = s.assignments ++ E ∧
      (∀ a ∈ E, a.child_id ∈ cs.map User.user_id ∧ a.assigned_date = today) ∧
      (∀ tid cid,
        E.countP (fun a => a.task_id == tid && a.child_id == cid &&
          decide (weekStart today ≤ a.assigned_date) &&
          decide (a.assigned_date < weekStart today + 7)) =
        if tid ∈ ts.map Task.task_id ∧ cid ∈ cs.map User.user_id ∧
           hasAssignmentInWeek s tid cid today = false then 1 else 0) ∧
      (∀ t ∈ ts, ∀ c ∈ cs,
        hasAssignmentInWeek s' t.task_id c.user_id today = true) := by
  intro cs
  induction cs with
  | nil =>
    intro s k ns _
    refine ⟨s, [], k, by simp, rfl, rfl, rfl, by simp, by simp, ?_, by simp⟩
    intro tid cid
    simp
  | cons c cs' ih =>
    intro s k ns hnd
    simp only [List.map_cons, List.nodup_cons] at hnd
    obtain ⟨s1, E1, hfold1, hu1, hu2, hu3, hA1, hE1, hcnt1, hall1⟩ :=
      stepTaskWeekly_fold c.user_id today ts s 0 [] hts
    set kc := ts.countP
      (fun t => !hasAssignmentInWeek s t.task_id c.user_id today) with hkc
    set pay := (ts.filter (fun t =>
      !hasAssignmentInWeek s t.task_id c.user_id today)).map Task.task_id
      with hpay
    set ns1 := if 0 < kc then ns ++ [Notif.mk c.user_id pay] else ns with hns1
    have hstep : stepChildWeekly ts today (s, k, ns) c = (s1, k + kc, ns1) := by
      unfold stepChildWeekly
      simp only [hfold1, Nat.zero_add, List.nil_append]
    have hiff : 0 < kc ↔ ts.any
        (fun t => !hasAssignmentInWeek s t.task_id c.user_id today) = true := by
      rw [hkc, List.countP_pos_iff, List.any_eq_true]
    have hE1L : ∀ tid cid, cid ≠ c.user_id → hasWeekL E1 tid cid today = false := by
      intro tid cid hne
      simp only [hasWeekL, List.any_eq_false]
      intro a ha
      have := (hE1 a ha).1
      simp [this, hne, Ne.symm hne]
    have hhas_eq : ∀ tid cid, cid ≠ c.user_id →
        hasAssignmentInWeek s1 tid cid today =
          hasAssignmentInWeek s tid cid today := by
      intro tid cid hne
      rw [hasAssignmentInWeek_eq, hA1, hasWeekL_append,
        ← hasAssignmentInWeek_eq s, hE1L tid cid hne, Bool.or_false]
    obtain ⟨s', E', k', hfold', hv1, hv2, hv3, hA', hE', hcnt', hall'⟩ :=
      ih s1 (k + kc) ns1 hnd.2
    have hchild_ne : ∀ c' ∈ cs', c'.user_id ≠ c.user_id := by
      intro c' hc' hcontra
      exact hnd.1 (hcontra ▸ List.mem_map_of_mem User.user_id hc')
    refine ⟨s', E1 ++ E', k', ?_, hv1.trans hu1, hv2.trans hu2, hv3.trans hu3,
      ?_, ?_, ?_, ?_⟩
    · rw [List.foldl_cons, hstep, hfold']
      have hfm : cs'.filterMap (fun c' =>
          if ts.any (fun t => !hasAssignmentInWeek s1 t.task_id c'.user_id today)
          then some (Notif.mk c'.user_id
            ((ts.filter (fun t =>
              !hasAssignmentInWeek s1 t.task_id c'.user_id today)).map
              Task.task_id))
          else none) =
          cs'.filterMap (fun c' =>
          if ts.any (fun t => !hasAssignmentInWeek s t.task_id c'.user_id today)
          then some (Notif.mk c'.user_id
            ((ts.filter (fun t =>
              !hasAssignmentInWeek s t.task_id c'.user_id today)).map
              Task.task_id))
          else none) := by
        apply List.filterMap_congr
        intro c' hc'
        have hptw : ∀ t ∈ ts,
            (!hasAssignmentInWeek s1 t.task_id c'.user_id today) =
            (!hasAssignmentInWeek s t.task_id c'.user_id today) := by
          intro t _
          rw [hhas_eq t.task_id c'.user_id (hchild_ne c' hc')]
        rw [any_ext ts _ _ hptw, List.filter_congr hptw]
      rw [hfm]
      by_cases hany : ts.any
          (fun t => !hasAssignmentInWeek s t.task_id c.user_id today) = true
      · have hpos : 0 < kc := hiff.2 hany
        rw [hns1, if_pos hpos]
        simp only [List.filterMap_cons, hany, if_pos]
        rw [List.append_assoc]
        rfl
      · have hzero : ¬ 0 < kc := fun hp => hany (hiff.1 hp)
        rw [hns1, if_neg hzero]
        simp only [List.filterMap_cons,
          Bool.eq_false_iff.2 (fun hc2 => hany hc2)]
        simp
    · rw [hA', hA1, List.append_assoc]
    · intro a ha
      rcases List.mem_append.1 ha with hm | hm
      · exact ⟨by simp [(hE1 a hm).1], (hE1 a hm).2⟩
      · refine ⟨?_, (hE' a hm).2⟩
        simp only [List.map_cons, List.mem_cons]
        exact Or.inr (hE' a hm).1
    · intro tid cid
      rw [List.countP_append, hcnt1 tid cid, hcnt' tid cid]
      by_cases hcid : cid = c.user_id
      · have hnotin : c.user_id ∉ cs'.map User.user_id := hnd.1
        simp [hcid, hnotin, List.mem_cons]
      · have hmem_iff : (cid ∈ (c :: cs').map User.user_id) ↔
            cid ∈ cs'.map User.user_id := by
          simp [List.mem_cons, hcid]
        by_cases hmm : cid ∈ cs'.map User.user_id
        · rw [hhas_eq tid cid hcid]
          simp [hcid, hmem_iff, hmm]
        · simp [hcid, hmem_iff, hmm]
    · intro t ht c2 hc2
      rcases List.mem_cons.1 hc2 with rfl | hm
      · rw [hasAssignmentInWeek_eq, hA', hasWeekL_append,
          ← hasAssignmentInWeek_eq s1, hall1 t ht]
        rfl
      · exact hall' t ht c2 hm

/-- A weekly inner loop over tasks that all already have a row this week is
the identity. -/
theorem stepTaskWeekly_fold_id (c today : Nat) (ts : List Task) :
    ∀ (s : State) (k : Nat) (l0 : List Task),
      (∀ t ∈ ts, hasAssignmentInWeek s t.task_id c today = true) →
      ts.foldl (stepTaskWeekly c today) (s, k, l0) = (s, k, l0) := by
  induction ts with
  | nil => intro s k l0 _; rfl
  | cons t ts' ih =>
    intro s k l0 hall
    rw [List.foldl_cons]
    have hstep : stepTaskWeekly c today (s, k, l0) t = (s, k, l0) := by
      unfold stepTaskWeekly
      rw [if_pos (hall t (List.mem_cons_self t ts'))]
    rw [hstep]
    exact ih s k l0 (fun t2 h2 => hall t2 (List.mem_cons_of_mem t h2))

/-- A weekly outer loop in which every (task, child) pair already has a row
this week changes nothing. -/
theorem stepChildWeekly_fold_id (ts : List Task) (today : Nat) :
    ∀ (cs : List User) (s : State) (k : Nat) (ns : List Notif),
      (∀ t ∈ ts, ∀ c ∈ cs,
        hasAssignmentInWeek s t.task_id c.user_id today = true) →
      cs.foldl (stepChildWeekly ts today) (s, k, ns) = (s, k, ns) := by
  intro cs
  induction cs with
  | nil => intro s k ns _; rfl
  | cons c cs' ih =>
    intro s k ns hall
    rw [List.foldl_cons]
    have hinner := stepTaskWeekly_fold_id c.user_id today ts s 0 []
      (fun t ht => hall t ht c (List.mem_cons_self c cs'))
    have hstep : stepChildWeekly ts today (s, k, ns) c = (s, k, ns) := by
      unfold stepChildWeekly
      simp only [hinner]
      simp
    rw [hstep]
    exact ih s k ns (fun t ht c2 h2 => hall t ht c2 (List.mem_cons_of_mem c h2))

theorem dailyTasksOf_eq_of_tasks_eq {s s' : State} (adminId : Nat)
    (h : s'.tasks = s.tasks) :
    dailyTasksOf s' adminId = dailyTasksOf s adminId := by
  unfold dailyTasksOf
  rw [h]

theorem childrenOf_eq_of_users_eq {s s' : State} (adminId : Nat)
    (h : s'.users = s.users) :
    childrenOf s' adminId = childrenOf s adminId := by
  unfold childrenOf
  rw [h]

/-! ### C5: sweep idempotence -/

/-- C5: running the daily (or weekly) sweep a second time in the same day
(or ISO week) is the identity — no new assignment, a zero count and no
notification — and a pair (task, child) with no assignment in the period
before the sweep has exactly one after it. -/
theorem c5_sweep_idempotent (s : State) (adminId today : Nat) (wts : List Task)
    (hT : (s.tasks.map Task.task_id).Nodup)
    (hU : (s.users.map User.user_id).Nodup)
    (hW : (wts.map Task.task_id).Nodup) :
    (assign_admin_daily_tasks (assign_admin_daily_tasks s adminId today).1
        adminId today =
      ((assign_admin_daily_tasks s adminId today).1, 0, [])) ∧
    (∀ t ∈ dailyTasksOf s adminId, ∀ c ∈ childrenOf s adminId,
      countOn s t.task_id c.user_id today = 0 →
      countOn (assign_admin_daily_tasks s adminId today).1
        t.task_id c.user_id today = 1) ∧
    (assign_admin_weekly_tasks
        (assign_admin_weekly_tasks s adminId wts today).1 adminId wts today =
      ((assign_admin_weekly_tasks s adminId wts today).1, 0, [])) ∧
    (∀ t ∈ wts, ∀ c ∈ childrenOf s adminId,
      countInWeek s t.task_id c.user_id today = 0 →
      countInWeek (assign_admin_weekly_tasks s adminId wts today).1
        t.task_id c.user_id today = 1) := by
  have hts : ((dailyTasksOf s adminId).map Task.task_id).Nodup :=
    nodup_map_filter Task.task_id _ s.tasks hT
  have hcs : ((childrenOf s adminId).map User.user_id).Nodup :=
    nodup_map_filter User.user_id _ s.users hU
  refine ⟨?_, ?_, ?_, ?_⟩
  · by_cases h1 : (dailyTasksOf s adminId).isEmpty
    · have e1 : assign_admin_daily_tasks s adminId today = (s, 0, []) := by
        unfold assign_admin_daily_tasks
        rw [if_pos h1]
      rw [e1]
      exact e1
    · by_cases h2 : (childrenOf s adminId).isEmpty
      · have e1 : assign_admin_daily_tasks s adminId today = (s, 0, []) := by
          unfold assign_admin_daily_tasks
          rw [if_neg h1, if_pos h2]
        rw [e1]
        exact e1
      · obtain ⟨s', E, k', hfold, hv1, hv2, hv3, hA, hEp, hcnt, hall⟩ :=
          stepChildDaily_fold (dailyTasksOf s adminId) today hts
            (childrenOf s adminId) s 0 [] hcs
        have e1 : assign_admin_daily_tasks s adminId today =
            (s', k', [] ++ (childrenOf s adminId).filterMap (fun c =>
              if (dailyTasksOf s adminId).any (fun t =>
                !hasAssignmentOn s t.task_id c.user_id today)
              then some ⟨c.user_id, (dailyTasksOf s adminId).map Task.task_id⟩
              else none)) := by
          unfold assign_admin_daily_tasks
          rw [if_neg h1, if_neg h2]
          exact hfold
        have er1 : (assign_admin_daily_tasks s adminId today).1 = s' := by
          rw [e1]
        rw [er1]
        have etasks : dailyTasksOf s' adminId = dailyTasksOf s adminId :=
          dailyTasksOf_eq_of_tasks_eq adminId hv1
        have eusers : childrenOf s' adminId = childrenOf s adminId :=
          childrenOf_eq_of_users_eq adminId hv2
        unfold assign_admin_daily_tasks
        rw [etasks, eusers, if_neg h1, if_neg h2]
        exact stepChildDaily_fold_id (dailyTasksOf s adminId) today
          (childrenOf s adminId) s' 0 [] hall
  · intro t ht c hc h0
    by_cases h1 : (dailyTasksOf s adminId).isEmpty
    · rw [List.isEmpty_iff] at h1
      rw [h1] at ht
      exact absurd ht (by simp)
    · by_cases h2 : (childrenOf s adminId).isEmpty
      · rw [List.isEmpty_iff] at h2
        rw [h2] at hc
        exact absurd hc (by simp)
      · obtain ⟨s', E, k', hfold, hv1, hv2, hv3, hA, hEp, hcnt, hall⟩ :=
          stepChildDaily_fold (dailyTasksOf s adminId) today hts
            (childrenOf s adminId) s 0 [] hcs
        have er1 : (assign_admin_daily_tasks s adminId today).1 = s' := by
          unfold assign_admin_daily_tasks
          rw [if_neg h1, if_neg h2, hfold]
        rw [er1]
        have hhasf : hasAssignmentOn s t.task_id c.user_id today = false := by
          cases hh : hasAssignmentOn s t.task_id c.user_id today
          · rfl
          · rw [hasAssignmentOn_eq] at hh
            have := (hasOnL_pos_iff s.assignments t.task_id c.user_id today).1 hh
            unfold countOn at h0
            omega
        unfold countOn
        rw [hA, List.countP_append]
        have hc0 : s.assignments.countP (fun a => a.task_id == t.task_id &&
            a.child_id == c.user_id && a.assigned_date == today) = 0 := h0
        rw [hc0, hcnt t.task_id c.user_id,
          if_pos ⟨List.mem_map_of_mem Task.task_id ht,
            List.mem_map_of_mem User.user_id hc, hhasf⟩]
  · by_cases h2 : (childrenOf s adminId).isEmpty
    · have e1 : assign_admin_weekly_tasks s adminId wts today = (s, 0, []) := by
        unfold assign_admin_weekly_tasks
        rw [if_pos h2]
      rw [e1]
      exact e1
    · obtain ⟨s', E, k', hfold, hv1, hv2, hv3, hA, hEp, hcnt, hall⟩ :=
        stepChildWeekly_fold wts today hW (childrenOf s adminId) s 0 [] hcs
      have er1 : (assign_admin_weekly_tasks s adminId wts today).1 = s' := by
        unfold assign_admin_weekly_tasks
        rw [if_neg h2, hfold]
      rw [er1]
      have eusers : childrenOf s' adminId = childrenOf s adminId :=
        childrenOf_eq_of_users_eq adminId hv2
      unfold assign_admin_weekly_tasks
      rw [eusers, if_neg h2]
      exact stepChildWeekly_fold_id wts today (childrenOf s adminId) s' 0 [] hall
  · intro t ht c hc h0
    by_cases h2 : (childrenOf s adminId).isEmpty
    · rw [List.isEmpty_iff] at h2
      rw [h2] at hc
      exact absurd hc (by simp)
    · obtain ⟨s', E, k', hfold, hv1, hv2, hv3, hA, hEp, hcnt, hall⟩ :=
        stepChildWeekly_fold wts today hW (childrenOf s adminId) s 0 [] hcs
      have er1 : (assign_admin_weekly_tasks s adminId wts today).1 = s' := by
        unfold assign_admin_weekly_tasks
        rw [if_neg h2, hfold]
      rw [er1]
      have hhasf : hasAssignmentInWeek s t.task_id c.user_id today = false := by
        cases hh : hasAssignmentInWeek s t.task_id c.user_id today
        · rfl
        · rw [hasAssignmentInWeek_eq] at hh
          have := (hasWeekL_pos_iff s.assignments t.task_id c.user_id today).1 hh
          unfold countInWeek at h0
          omega
      unfold countInWeek
      rw [hA, List.countP_append]
      have hc0 : s.assignments.countP (fun a => a.task_id == t.task_id &&
          a.child_id == c.user_id &&
          decide (weekStart today ≤ a.assigned_date) &&
          decide (a.assigned_date < weekStart today + 7)) = 0 := h0
      rw [hc0, hcnt t.task_id c.user_id,
        if_pos ⟨List.mem_map_of_mem Task.task_id ht,
          List.mem_map_of_mem User.user_id hc, hhasf⟩]

/-- A store with one active daily task and no assignment yet. -/
def exStateSweep : State := ⟨[exDaily], [exAdmin, exChild], [], [], 1⟩

/-- Witness for C5: on a fresh store the daily sweep assigns exactly one
task to the child, and running it again is the identity. -/
theorem c5_sweep_idempotent_witness :
    (assign_admin_daily_tasks
        (assign_admin_daily_tasks exStateSweep 1 9).1 1 9 =
      ((assign_admin_daily_tasks exStateSweep 1 9).1, 0, [])) ∧
    countOn exStateSweep 100 20 9 = 0 ∧
    countOn (assign_admin_daily_tasks exStateSweep 1 9).1 100 20 9 = 1 ∧
    (assign_admin_weekly_tasks
        (assign_admin_weekly_tasks exStateSweep 1 [exWeekly] 9).1
        1 [exWeekly] 9 =
      ((assign_admin_weekly_tasks exStateSweep 1 [exWeekly] 9).1, 0, [])) ∧
    countInWeek (assign_admin_weekly_tasks exStateSweep 1 [exWeekly] 9).1
      101 20 9 = 1 := by
  have h := c5_sweep_idempotent exStateSweep 1 9 [exWeekly]
    (by decide) (by decide) (by decide)
  refine ⟨h.1, by decide, ?_, h.2.2.1, ?_⟩
  · exact h.2.1 exDaily (by decide) exChild (by decide) (by decide)
  · exact h.2.2.2 exWeekly (by decide) exChild (by decide) (by decide)

/-! ### C9: content of the sweep notifications -/

/-- A second active daily task of the same admin. -/
def exDaily2 : Task :=
  ⟨102, "homework", none, TaskType.daily, 20, 68400000000, none, 1, true⟩

/-- A store where task 100 is already assigned to the child today but task
102 is not. -/
def exStateTwo : State :=
  ⟨[exDaily, exDaily2], [exAdmin, exChild],
   [⟨5, 100, 20, 9, combine 9 64800000000, false, none, none⟩], [], 6⟩

/-- C9 counterexample: the daily sweep creates exactly one new assignment
(task 102 — task 100 was already assigned today), yet the child's single
notification lists both tasks 100 and 102, not only the newly created one. -/
theorem c9_notification_counterexample :
    hasAssignmentOn exStateTwo 100 20 9 = true ∧
    (assign_admin_daily_tasks exStateTwo 1 9).2.1 = 1 ∧
    (assign_admin_daily_tasks exStateTwo 1 9).2.2 =
      [Notif.mk 20 [100, 102]] := by
  decide

/-- C9 amended: in either sweep each child with at least one newly created
assignment receives exactly one combined notification and children with none
receive none, but the payloads differ: the weekly sweep lists exactly the
child's newly created assignments, while the daily sweep lists the admin's
whole active daily task list, including tasks already assigned before the
sweep. -/
theorem c9_sweep_notifications_amended (s : State) (adminId today : Nat)
    (wts : List Task)
    (hT : (s.tasks.map Task.task_id).Nodup)
    (hU : (s.users.map User.user_id).Nodup)
    (hW : (wts.map Task.task_id).Nodup) :
    (assign_admin_daily_tasks s adminId today).2.2 =
      (childrenOf s adminId).filterMap (fun c =>
        if (dailyTasksOf s adminId).any (fun t =>
          !hasAssignmentOn s t.task_id c.user_id today)
        then some (Notif.mk c.user_id
          ((dailyTasksOf s adminId).map Task.task_id))
        else none) ∧
    (assign_admin_weekly_tasks s adminId wts today).2.2 =
      (childrenOf s adminId).filterMap (fun c =>
        if wts.any (fun t => !hasAssignmentInWeek s t.task_id c.user_id today)
        then some (Notif.mk c.user_id
          ((wts.filter (fun t =>
            !hasAssignmentInWeek s t.task_id c.user_id today)).map
            Task.task_id))
        else none) := by
  have hts : ((dailyTasksOf s adminId).map Task.task_id).Nodup :=
    nodup_map_filter Task.task_id _ s.tasks hT
  have hcs : ((childrenOf s adminId).map User.user_id).Nodup :=
    nodup_map_filter User.user_id _ s.users hU
  constructor
  · by_cases h1 : (dailyTasksOf s adminId).isEmpty
    · have e1 : assign_admin_daily_tasks s adminId today = (s, 0, []) := by
        unfold assign_admin_daily_tasks
        rw [if_pos h1]
      rw [e1, List.isEmpty_iff.1 h1]
      simp
    · by_cases h2 : (childrenOf s adminId).isEmpty
      · have e1 : assign_admin_daily_tasks s adminId today = (s, 0, []) := by
          unfold assign_admin_daily_tasks
          rw [if_neg h1, if_pos h2]
        rw [e1, List.isEmpty_iff.1 h2]
        simp
      · obtain ⟨s', E, k', hfold, _⟩ :=
          stepChildDaily_fold (dailyTasksOf s adminId) today hts
            (childrenOf s adminId) s 0 [] hcs
        have e1 : (assign_admin_daily_tasks s adminId today).2.2 =
            [] ++ (childrenOf s adminId).filterMap (fun c =>
              if (dailyTasksOf s adminId).any (fun t =>
                !hasAssignmentOn s t.task_id c.user_id today)
              then some ⟨c.user_id, (dailyTasksOf s adminId).map Task.task_id⟩
              else none) := by
          unfold assign_admin_daily_tasks
          rw [if_neg h1, if_neg h2, hfold]
        rw [e1]
        simp
  · by_cases h2 : (childrenOf s adminId).isEmpty
    · have e1 : assign_admin_weekly_tasks s adminId wts today = (s, 0, []) := by
        unfold assign_admin_weekly_tasks
        rw [if_pos h2]
      rw [e1, List.isEmpty_iff.1 h2]
      simp
    · obtain ⟨s', E, k', hfold, _⟩ :=
        stepChildWeekly_fold wts today hW (childrenOf s adminId) s 0 [] hcs
      have e1 : (assign_admin_weekly_tasks s adminId wts today).2.2 =
          [] ++ (childrenOf s adminId).filterMap (fun c =>
            if wts.any (fun t =>
              !hasAssignmentInWeek s t.task_id c.user_id today)
            then some (Notif.mk c.user_id
              ((wts.filter (fun t =>
                !hasAssignmentInWeek s t.task_id c.user_id today)).map
                Task.task_id))
            else none) := by
        unfold assign_admin_weekly_tasks
        rw [if_neg h2, hfold]
      rw [e1]
      simp

/-- Witness for the amended C9 at the two-task store: the single daily
notification carries the full task list, and a weekly run carries only the
new tasks. -/
theorem c9_sweep_notifications_amended_witness :
    (assign_admin_daily_tasks exStateTwo 1 9).2.2 =
      (childrenOf exStateTwo 1).filterMap (fun c =>
        if (dailyTasksOf exStateTwo 1).any (fun t =>
          !hasAssignmentOn exStateTwo t.task_id c.user_id 9)
        then some (Notif.mk c.user_id
          ((dailyTasksOf exStateTwo 1).map Task.task_id))
        else none) ∧
    (assign_admin_weekly_tasks exStateTwo 1 [exWeekly] 9).2.2 =
      (childrenOf exStateTwo 1).filterMap (fun c =>
        if [exWeekly].any (fun t =>
          !hasAssignmentInWeek exStateTwo t.task_id c.user_id 9)
        then some (Notif.mk c.user_id
          (([exWeekly].filter (fun t =>
            !hasAssignmentInWeek exStateTwo t.task_id c.user_id 9)).map
            Task.task_id))
        else none) :=
  c9_sweep_notifications_amended exStateTwo 1 9 [exWeekly]
    (by decide) (by decide) (by decide)

end FamilyBot
